import Mathlib

/-!
# Verification of the DYK insight pipeline core

A shallow embedding, in Lean 4, of the core algorithms of the DYK
("Did You Know") health-insight generation repository:

* `src/core/llm_client.py` — `RateLimiter.acquire` and
  `OpenRouterClient.generate` (retry/backoff classification);
* `src/core/creative_rewriter.py` — `_parse_json_response` and
  `_attempt_json_repair` (the malformed-JSON repair heuristics), together
  with a faithful port of the CPython `json.loads` scanner they rely on;
* `src/core/deduplicator.py` — `InsightDeduplicator.__init__` weight
  validation, `_compute_weighted_similarity`, `_greedy_deduplication`
  and `_connected_components_clustering`;
* `src/pipeline.py` — `DYKPipeline.run_async` stage sequencing,
  result collection, survivor selection and short-circuiting.

Machine floats of the source are modelled as exact rationals; the
external sentence-embedding model is modelled as an arbitrary family of
L2-normalised vectors (`sentence_transformers` embeddings are consumed
through `sklearn.metrics.pairwise.cosine_similarity`, which normalises
each row, so the similarity computation is the dot product of the
normalised rows).
-/

namespace DYK

/-! ## Deduplicator: weight validation (`InsightDeduplicator.__init__`) -/

/-- Component weights of the deduplicator: `{'hook': …, 'action': …,
'explanation': …}` in the source. -/
structure Weights where
  hook : ℚ
  action : ℚ
  explanation : ℚ
deriving DecidableEq, Repr

/-- The default weights `{'hook': 0.4, 'action': 0.4, 'explanation': 0.2}`
used when the caller passes `weights=None`. -/
def defaultWeights : Weights := ⟨0.4, 0.4, 0.2⟩

/-- `sum(self.weights.values())`. -/
def Weights.total (w : Weights) : ℚ := w.hook + w.action + w.explanation

/-- `np.isclose(a, b)` with NumPy's default tolerances
`rtol=1e-5, atol=1e-8`: `|a - b| <= atol + rtol * |b|`. -/
def npIsClose (a b : ℚ) : Bool := |a - b| ≤ 1e-8 + 1e-5 * |b|

/-- The state established by `InsightDeduplicator.__init__`: the stored
weights and threshold.  The embedding / similarity caches start out
`None` in the source and are not part of construction. -/
structure Deduplicator where
  weights : Weights
  threshold : Option ℚ
deriving DecidableEq, Repr

/-- `InsightDeduplicator.__init__`: store `weights or default`, then
validate `np.isclose(sum(weights.values()), 1.0)` and raise `ValueError`
otherwise.  No embedding or similarity computation happens here (the
caches are initialised to `None`). -/
def initDeduplicator (weights : Option Weights) (threshold : Option ℚ) :
    Except String Deduplicator :=
  let w := weights.getD defaultWeights
  if npIsClose w.total 1 then
    Except.ok ⟨w, threshold⟩
  else
    Except.error ("Weights must sum to 1.0")

/-! ## Deduplicator: weighted similarity (`_compute_weighted_similarity`)

`cosine_similarity(X)` (scikit-learn) L2-normalises every row of `X` and
returns the matrix of pairwise dot products.  We therefore model each
per-component embedding matrix as a family of already-normalised vectors
`Fin n → Fin d → ℚ`; the unit-norm condition is carried as an explicit
hypothesis of the theorems. -/

/-- Dot product of two `d`-dimensional rational vectors. -/
def dotQ {d : ℕ} (u v : Fin d → ℚ) : ℚ := ∑ k, u k * v k

/-- A vector is L2-normalised when its dot product with itself is 1. -/
def IsUnit2 {d : ℕ} (u : Fin d → ℚ) : Prop := dotQ u u = 1

/-- `cosine_similarity(E)` on row-normalised input: entry `(i, j)` is the
dot product of rows `i` and `j`. -/
def cosineSim {n d : ℕ} (e : Fin n → Fin d → ℚ) (i j : Fin n) : ℚ :=
  dotQ (e i) (e j)

/-- The three per-component embedding matrices computed by
`compute_embeddings` (the `full` view is not used by
`_compute_weighted_similarity`). -/
structure Embeddings (n d : ℕ) where
  hook : Fin n → Fin d → ℚ
  explanation : Fin n → Fin d → ℚ
  action : Fin n → Fin d → ℚ

/-- Every component row of the batch is L2-normalised. -/
def Embeddings.Normalised {n d : ℕ} (E : Embeddings n d) : Prop :=
  (∀ i, IsUnit2 (E.hook i)) ∧ (∀ i, IsUnit2 (E.explanation i)) ∧
    (∀ i, IsUnit2 (E.action i))

/-- `_compute_weighted_similarity`:
`weights['hook'] * hook_sim + weights['explanation'] * explanation_sim
 + weights['action'] * action_sim`. -/
def computeWeightedSimilarity {n d : ℕ} (w : Weights) (E : Embeddings n d)
    (i j : Fin n) : ℚ :=
  w.hook * cosineSim E.hook i j
    + w.explanation * cosineSim E.explanation i j
    + w.action * cosineSim E.action i j

/-- Dot products are symmetric, hence every `cosine_similarity` matrix is. -/
theorem cosineSim_symm {n d : ℕ} (e : Fin n → Fin d → ℚ) (i j : Fin n) :
    cosineSim e i j = cosineSim e j i := by
  unfold cosineSim dotQ
  exact Finset.sum_congr rfl fun k _ => mul_comm _ _

/-- Cauchy–Schwarz: a dot product of unit vectors lies in `[-1, 1]`. -/
theorem cosineSim_mem_Icc {n d : ℕ} (e : Fin n → Fin d → ℚ)
    (h : ∀ i, IsUnit2 (e i)) (i j : Fin n) :
    cosineSim e i j ∈ Set.Icc (-1 : ℚ) 1 := by
  have hcs := Finset.sum_mul_sq_le_sq_mul_sq (Finset.univ : Finset (Fin d))
    (e i) (e j)
  have hi := h i
  have hj := h j
  unfold IsUnit2 dotQ at hi hj
  have hsq : (cosineSim e i j) ^ 2 ≤ 1 := by
    unfold cosineSim dotQ
    calc (∑ k, e i k * e j k) ^ 2
        ≤ (∑ k, e i k ^ 2) * ∑ k, e j k ^ 2 := hcs
      _ = (∑ k, e i k * e i k) * ∑ k, e j k * e j k := by
          simp [sq]
      _ = 1 := by rw [hi, hj, mul_one]
  have habs : |cosineSim e i j| ≤ 1 := (sq_le_one_iff_abs_le_one _).mp hsq
  exact ⟨neg_le_of_abs_le habs, le_of_abs_le habs⟩

/-- A unit vector has self-similarity exactly 1. -/
theorem cosineSim_self {n d : ℕ} (e : Fin n → Fin d → ℚ)
    (h : ∀ i, IsUnit2 (e i)) (i : Fin n) : cosineSim e i i = 1 := h i

/-! ## Deduplicator: connected-components clustering

`_connected_components_clustering` (and the inline copy in
`DYKPipeline.run_async`, step 3) builds an undirected `networkx` graph on
`range(n)` with an edge `(i, j)` for every `i < j` with
`similarity_matrix[i, j] >= threshold`, and takes its connected
components.  The pipeline then keeps `min(cluster)` of every component
(`unique_indices`) and maps the sorted survivors back to insights. -/

/-- The threshold graph: nodes `range(n)`, an undirected edge for every
pair `i < j` with `sim[i, j] >= threshold`. -/
def dedupGraph (n : ℕ) (sim : Fin n → Fin n → ℚ) (th : ℚ) :
    SimpleGraph (Fin n) where
  Adj i j := (i < j ∧ th ≤ sim i j) ∨ (j < i ∧ th ≤ sim j i)
  symm := by
    intro i j h
    rcases h with h | h
    · exact Or.inr h
    · exact Or.inl h
  loopless := by
    intro i h
    rcases h with h | h <;> exact absurd h.1 (lt_irrefl i)

instance dedupGraphAdjDecidable (n : ℕ) (sim : Fin n → Fin n → ℚ) (th : ℚ) :
    DecidableRel (dedupGraph n sim th).Adj := fun i j =>
  inferInstanceAs (Decidable ((i < j ∧ th ≤ sim i j) ∨ (j < i ∧ th ≤ sim j i)))

/-- The members of one `nx.connected_components` cluster. -/
def clusterMembers {n : ℕ} {sim : Fin n → Fin n → ℚ} {th : ℚ}
    (c : (dedupGraph n sim th).ConnectedComponent) : Finset (Fin n) :=
  Finset.univ.filter (fun v => v ∈ c.supp)

/-- `len(clusters)`: the number of connected components. -/
def numClusters (n : ℕ) (sim : Fin n → Fin n → ℚ) (th : ℚ) : ℕ :=
  Fintype.card (dedupGraph n sim th).ConnectedComponent

theorem mem_clusterMembers {n : ℕ} {sim : Fin n → Fin n → ℚ} {th : ℚ}
    (c : (dedupGraph n sim th).ConnectedComponent) (v : Fin n) :
    v ∈ clusterMembers c ↔ (dedupGraph n sim th).connectedComponentMk v = c := by
  simp [clusterMembers]

theorem clusterMembers_nonempty {n : ℕ} {sim : Fin n → Fin n → ℚ} {th : ℚ}
    (c : (dedupGraph n sim th).ConnectedComponent) :
    (clusterMembers c).Nonempty := by
  refine c.ind (fun v => ?_)
  exact ⟨v, (mem_clusterMembers _ v).mpr rfl⟩

/-- `min(cluster)`: the lowest-indexed member of a component. -/
def minVert {n : ℕ} {sim : Fin n → Fin n → ℚ} {th : ℚ}
    (c : (dedupGraph n sim th).ConnectedComponent) : Fin n :=
  (clusterMembers c).min' (clusterMembers_nonempty c)

/-- `unique_indices = [min(cluster) for cluster in clusters]` (collected
as a set; the pipeline sorts it before use). -/
def uniqueIndices (n : ℕ) (sim : Fin n → Fin n → ℚ) (th : ℚ) :
    Finset (Fin n) :=
  Finset.univ.image (fun c : (dedupGraph n sim th).ConnectedComponent => minVert c)

/-- `unique_insights = [all_insights[i] for i in sorted(unique_indices)]`. -/
def uniqueInsights {α : Type} (insights : List α)
    (sim : Fin insights.length → Fin insights.length → ℚ) (th : ℚ) : List α :=
  ((uniqueIndices insights.length sim th).sort (· ≤ ·)).map
    (fun i => insights.get i)

theorem minVert_mem {n : ℕ} {sim : Fin n → Fin n → ℚ} {th : ℚ}
    (c : (dedupGraph n sim th).ConnectedComponent) :
    minVert c ∈ clusterMembers c :=
  Finset.min'_mem _ _

theorem minVert_injective {n : ℕ} {sim : Fin n → Fin n → ℚ} {th : ℚ} :
    Function.Injective
      (fun c : (dedupGraph n sim th).ConnectedComponent => minVert c) := by
  intro c d h
  have hc := minVert_mem c
  have hd := minVert_mem d
  rw [mem_clusterMembers] at hc hd
  simp only at h
  rw [← hc, ← hd, h]

/-- C1: For every insight batch, similarity matrix and threshold, the
connected-components clustering used for deduplication partitions the
index set (every index is in the cluster of its own component, clusters
of distinct components are disjoint, and the clusters jointly cover all
indices); the pipeline keeps the lowest-indexed member of each component
(`min(cluster)`), these representatives are pairwise distinct, and the
number of surviving unique insights equals the number of components. -/
theorem clustering_partitions_and_min_survivors {α : Type} (insights : List α)
    (sim : Fin insights.length → Fin insights.length → ℚ) (th : ℚ) :
    ((Finset.univ :
        Finset (dedupGraph insights.length sim th).ConnectedComponent).biUnion
          (fun c => clusterMembers c) = Finset.univ)
    ∧ (∀ c d : (dedupGraph insights.length sim th).ConnectedComponent,
        c ≠ d → Disjoint (clusterMembers c) (clusterMembers d))
    ∧ (∀ c : (dedupGraph insights.length sim th).ConnectedComponent,
        minVert c ∈ clusterMembers c ∧ ∀ v ∈ clusterMembers c, minVert c ≤ v)
    ∧ (uniqueIndices insights.length sim th).card = numClusters insights.length sim th
    ∧ (uniqueInsights insights sim th).length = numClusters insights.length sim th := by
  have hcard : (uniqueIndices insights.length sim th).card
      = numClusters insights.length sim th := by
    unfold uniqueIndices numClusters
    rw [Finset.card_image_of_injective _ minVert_injective, Finset.card_univ]
  refine ⟨?_, ?_, ?_, hcard, ?_⟩
  · apply Finset.ext
    intro v
    simp only [Finset.mem_biUnion, Finset.mem_univ, true_iff, iff_true]
    exact ⟨(dedupGraph insights.length sim th).connectedComponentMk v,
      trivial, (mem_clusterMembers _ v).mpr rfl⟩
  · intro c d hcd
    rw [Finset.disjoint_left]
    intro v hvc hvd
    rw [mem_clusterMembers] at hvc hvd
    exact hcd (hvc ▸ hvd)
  · intro c
    exact ⟨minVert_mem c, fun v hv => Finset.min'_le _ _ hv⟩
  · unfold uniqueInsights
    rw [List.length_map, Finset.length_sort]
    exact hcard

/-! ## Deduplicator: greedy sequential deduplication

`_greedy_deduplication`: visit the indices in a given order, keeping an
index iff its similarity to every already-kept index is below the
threshold; the source runs this for `n_greedy_runs` random permutations
and reports `np.mean` / `np.std` of the kept counts. -/

/-- One iteration of the greedy loop body: `idx` is kept unless some
already-kept index has `similarity_matrix[idx, kept_idx] >= threshold`. -/
def greedyStep {n : ℕ} (sim : Fin n → Fin n → ℚ) (th : ℚ)
    (kept : List (Fin n)) (idx : Fin n) : List (Fin n) :=
  if kept.any (fun k => th ≤ sim idx k) then kept else kept ++ [idx]

/-- The kept indices of one greedy run over a visiting order. -/
def greedyKept {n : ℕ} (sim : Fin n → Fin n → ℚ) (th : ℚ)
    (order : List (Fin n)) : List (Fin n) :=
  order.foldl (greedyStep sim th) []

/-- `np.mean(results)` over the kept counts of the runs: the
`greedy_unique_mean` statistic. -/
def greedyUniqueMean {n : ℕ} (sim : Fin n → Fin n → ℚ) (th : ℚ)
    (orders : List (List (Fin n))) : ℚ :=
  (orders.map (fun o => ((greedyKept sim th o).length : ℚ))).sum / orders.length

theorem greedy_subset_mono {n : ℕ} (sim : Fin n → Fin n → ℚ) (th : ℚ)
    (order : List (Fin n)) (acc : List (Fin n)) :
    ∀ k ∈ acc, k ∈ order.foldl (greedyStep sim th) acc := by
  induction order generalizing acc with
  | nil => intro k hk; exact hk
  | cons v rest ih =>
    intro k hk
    apply ih
    unfold greedyStep
    by_cases h : acc.any (fun k => th ≤ sim v k)
    · simpa [h] using hk
    · simp only [h]
      simp [hk]

theorem greedy_dominates {n : ℕ} (sim : Fin n → Fin n → ℚ) (th : ℚ)
    (order : List (Fin n)) (acc : List (Fin n)) :
    ∀ v ∈ order, v ∈ order.foldl (greedyStep sim th) acc
      ∨ ∃ k ∈ order.foldl (greedyStep sim th) acc, th ≤ sim v k := by
  induction order generalizing acc with
  | nil => intro v hv; cases hv
  | cons w rest ih =>
    intro v hv
    rcases List.mem_cons.mp hv with rfl | hv
    · by_cases h : acc.any (fun k => th ≤ sim v k)
      · rcases List.any_eq_true.mp h with ⟨k, hk, hsim⟩
        right
        exact ⟨k, greedy_subset_mono sim th rest _ k
          (by unfold greedyStep; simp [h, hk]), of_decide_eq_true hsim⟩
      · left
        apply greedy_subset_mono sim th rest _ v
        unfold greedyStep
        simp [h]
    · exact ih _ v hv

/-- Every connected component of the threshold graph contains a kept
index of any greedy run whose order visits all indices (for a symmetric
matrix: a similar pair is an edge, so a dominated index lies in the same
component as its dominating kept index). -/
theorem greedy_meets_every_component {n : ℕ} (sim : Fin n → Fin n → ℚ)
    (th : ℚ) (hsym : ∀ i j, sim i j = sim j i) (order : List (Fin n))
    (hcomplete : ∀ v : Fin n, v ∈ order)
    (c : (dedupGraph n sim th).ConnectedComponent) :
    ∃ k ∈ greedyKept sim th order,
      (dedupGraph n sim th).connectedComponentMk k = c := by
  refine c.ind (fun v => ?_)
  rcases greedy_dominates sim th order [] v (hcomplete v) with hkept | ⟨k, hk, hsim⟩
  · exact ⟨v, hkept, rfl⟩
  · refine ⟨k, hk, ?_⟩
    by_cases hvk : v = k
    · rw [hvk]
    · have hadj : (dedupGraph n sim th).Adj v k := by
        rcases lt_or_gt_of_ne hvk with hlt | hgt
        · exact Or.inl ⟨hlt, hsim⟩
        · exact Or.inr ⟨hgt, (hsym v k) ▸ hsim⟩
      exact (SimpleGraph.ConnectedComponent.connectedComponentMk_eq_of_adj hadj).symm

theorem numClusters_le_greedy {n : ℕ} (sim : Fin n → Fin n → ℚ) (th : ℚ)
    (hsym : ∀ i j, sim i j = sim j i) (order : List (Fin n))
    (hcomplete : ∀ v : Fin n, v ∈ order) :
    numClusters n sim th ≤ (greedyKept sim th order).length := by
  classical
  have hmeet := greedy_meets_every_component sim th hsym order hcomplete
  have h1 : numClusters n sim th ≤ (greedyKept sim th order).toFinset.card := by
    unfold numClusters
    rw [← Finset.card_univ]
    apply Finset.card_le_card_of_injOn
      (fun c => ((hmeet c).choose : Fin n))
    · intro c _
      simp only [List.mem_toFinset]
      exact (hmeet c).choose_spec.1
    · intro c _ d _ hcd
      simp only at hcd
      have hc := (hmeet c).choose_spec.2
      have hd := (hmeet d).choose_spec.2
      rw [← hc, ← hd, hcd]
  exact h1.trans (greedyKept sim th order).toFinset_card_le

/-- C10: for every symmetric similarity matrix with unit diagonal, every
threshold, and every family of visiting orders each covering all indices,
every greedy run keeps at least as many items as there are connected
components of the threshold graph, and therefore the reported
`greedy_unique_mean` is at least the reported `cluster_count`. -/
theorem greedy_mean_ge_cluster_count {n : ℕ} (sim : Fin n → Fin n → ℚ)
    (th : ℚ) (hsym : ∀ i j, sim i j = sim j i) (_hdiag : ∀ i, sim i i = 1)
    (orders : List (List (Fin n)))
    (hord : ∀ o ∈ orders, ∀ v : Fin n, v ∈ o) (hne : orders ≠ []) :
    (∀ o ∈ orders, numClusters n sim th ≤ (greedyKept sim th o).length)
    ∧ (numClusters n sim th : ℚ) ≤ greedyUniqueMean sim th orders := by
  have hrun : ∀ o ∈ orders, numClusters n sim th ≤ (greedyKept sim th o).length :=
    fun o ho => numClusters_le_greedy sim th hsym o (hord o ho)
  refine ⟨hrun, ?_⟩
  have hpos : 0 < (orders.length : ℚ) := by
    have := List.length_pos.mpr hne
    exact_mod_cast this
  rw [greedyUniqueMean, le_div_iff₀ hpos]
  have hgen : ∀ xs : List ℚ, (∀ x ∈ xs, (numClusters n sim th : ℚ) ≤ x) →
      (numClusters n sim th : ℚ) * xs.length ≤ xs.sum := by
    intro xs
    induction xs with
    | nil => simp
    | cons x rest ih =>
      intro hx
      have h1 := hx x (List.mem_cons_self x rest)
      have h2 := ih (fun y hy => hx y (List.mem_cons_of_mem _ hy))
      simp only [List.sum_cons, List.length_cons]
      push_cast
      nlinarith [h1, h2]
  have := hgen (orders.map (fun o => ((greedyKept sim th o).length : ℚ)))
    (by
      intro x hx
      rcases List.mem_map.mp hx with ⟨o, ho, rfl⟩
      exact_mod_cast hrun o ho)
  simpa using this

/-- C2 (amended): for every insight batch with L2-normalised component
embeddings and nonnegative component weights summing to 1, the weighted
similarity matrix is symmetric, has diagonal entries exactly 1, and
every entry lies in `[-1, 1]` (not `[0, 1]`: component cosine
similarities of arbitrary embeddings can be negative). -/
theorem weighted_similarity_symm_diag_range {n d : ℕ} (w : Weights)
    (E : Embeddings n d) (hE : E.Normalised)
    (hw1 : w.total = 1) (hwh : 0 ≤ w.hook) (hwa : 0 ≤ w.action)
    (hwe : 0 ≤ w.explanation) :
    (∀ i j, computeWeightedSimilarity w E i j = computeWeightedSimilarity w E j i)
    ∧ (∀ i, computeWeightedSimilarity w E i i = 1)
    ∧ (∀ i j, computeWeightedSimilarity w E i j ∈ Set.Icc (-1 : ℚ) 1) := by
  obtain ⟨hEh, hEe, hEa⟩ := hE
  refine ⟨?_, ?_, ?_⟩
  · intro i j
    unfold computeWeightedSimilarity
    rw [cosineSim_symm E.hook, cosineSim_symm E.explanation, cosineSim_symm E.action]
  · intro i
    unfold computeWeightedSimilarity
    rw [cosineSim_self E.hook hEh, cosineSim_self E.explanation hEe,
      cosineSim_self E.action hEa]
    have := hw1
    unfold Weights.total at this
    linarith
  · intro i j
    have hh := cosineSim_mem_Icc E.hook hEh i j
    have he := cosineSim_mem_Icc E.explanation hEe i j
    have ha := cosineSim_mem_Icc E.action hEa i j
    obtain ⟨hh1, hh2⟩ := hh
    obtain ⟨he1, he2⟩ := he
    obtain ⟨ha1, ha2⟩ := ha
    have ht := hw1
    unfold Weights.total at ht
    constructor
    · unfold computeWeightedSimilarity
      nlinarith
    · unfold computeWeightedSimilarity
      nlinarith

/-- A two-insight batch whose component embeddings are opposite unit
vectors: every component cosine similarity of the two insights is `-1`. -/
def oppositeEmb : Embeddings 2 1 :=
  ⟨fun i _ => if i = 0 then 1 else -1,
   fun i _ => if i = 0 then 1 else -1,
   fun i _ => if i = 0 then 1 else -1⟩

/-- C2 counterexample: for a legitimate (unit-norm) batch, the weighted
similarity of the two opposite insights under the default weights is
negative, so not every entry lies in `[0, 1]`. -/
theorem weighted_similarity_not_in_unit_interval :
    oppositeEmb.Normalised
    ∧ computeWeightedSimilarity defaultWeights oppositeEmb 0 1 ∉
        Set.Icc (0 : ℚ) 1 := by
  constructor
  · refine ⟨?_, ?_, ?_⟩ <;>
      · intro i
        unfold IsUnit2 dotQ oppositeEmb
        fin_cases i <;> simp [Fin.sum_univ_succ]
  · intro hmem
    have h0 := hmem.1
    have : computeWeightedSimilarity defaultWeights oppositeEmb 0 1 = -1 := by
      unfold computeWeightedSimilarity cosineSim dotQ oppositeEmb defaultWeights
      norm_num [Fin.sum_univ_succ]
    rw [this] at h0
    norm_num at h0

/-! ## CPython `json.loads`

`CreativeRewriter._parse_json_response` delegates parsing to
`json.loads`; its repair heuristics dispatch on the `JSONDecodeError`
message and position.  This is a faithful port of the reference
implementation (`json/decoder.py` / `json/scanner.py`): `py_scanstring`,
`JSONObject`, `JSONArray`, `py_make_scanner._scan_once` and
`JSONDecoder.decode`, with the same error messages and error positions
(for the invalid-escape and control-character errors we follow the
`_json` C scanner that `json.loads` actually dispatches to: message
without the offending-character repr, position at the offending index).
Recursion is bounded by explicit fuel (always instantiated with more
fuel than the input length, so the bound is never hit on any input).
Numbers are modelled as exact rationals (`parse_float` rounds to binary
float; we idealise it as the exact decimal value).  Astral `\uXXXX`
surrogate artifacts of `chr` are outside the model. -/

/-- `JSONDecodeError`: the unformatted message and the failure index. -/
structure JsonError where
  msg : String
  pos : ℕ
deriving DecidableEq, Repr

/-- Python values produced by `json.loads`. -/
inductive JValue where
  | null
  | bool (b : Bool)
  | num (q : ℚ)
  | nan
  | inf
  | negInf
  | str (s : String)
  | arr (elems : List JValue)
  | obj (pairs : List (String × JValue))

def lbrace : Char := Char.ofNat 123

def rbrace : Char := Char.ofNat 125

def apoS : String := String.mk [Char.ofNat 39]

/-- `WHITESPACE_STR = ' \t\n\r'`. -/
def isJsonWs (c : Char) : Bool := c = ' ' || c = '\t' || c = '\n' || c = '\r'

def msgExpectingValue : String := "Expecting value"

def msgExpectingPropertyName : String :=
  "Expecting property name enclosed in double quotes"

def msgExpectingColon : String :=
  "Expecting " ++ apoS ++ ":" ++ apoS ++ " delimiter"

def msgExpectingComma : String :=
  "Expecting " ++ apoS ++ "," ++ apoS ++ " delimiter"

def msgExtraData : String := "Extra data"

def msgUnterminated : String := "Unterminated string starting at"

/-- `WHITESPACE.match(s, i).end()`: the first index `>= i` holding a
non-whitespace character (or the length). -/
def skipWsF : ℕ → List Char → ℕ → ℕ
  | 0, _, i => i
  | fuel + 1, s, i =>
    match s[i]? with
    | some c => if isJsonWs c then skipWsF fuel s (i + 1) else i
    | none => i

def skipWs (s : List Char) (i : ℕ) : ℕ := skipWsF (s.length + 1) s i

/-- Python slice `s[a:b]` for natural bounds. -/
def pySlice (s : List Char) (a b : ℕ) : List Char := (s.drop a).take (b - a)

/-- The `BACKSLASH` escape table. -/
def backslashChar (c : Char) : Option Char :=
  if c = '"' then some '"'
  else if c = '\\' then some '\\'
  else if c = '/' then some '/'
  else if c = 'b' then some (Char.ofNat 8)
  else if c = 'f' then some (Char.ofNat 12)
  else if c = 'n' then some '\n'
  else if c = 'r' then some '\r'
  else if c = 't' then some '\t'
  else none

def hexDigitVal (c : Char) : Option ℕ :=
  if '0' ≤ c ∧ c ≤ '9' then some (c.toNat - '0'.toNat)
  else if 'a' ≤ c ∧ c ≤ 'f' then some (c.toNat - 'a'.toNat + 10)
  else if 'A' ≤ c ∧ c ≤ 'F' then some (c.toNat - 'A'.toNat + 10)
  else none

/-- `_decode_uXXXX(s, pos)`: `s[pos]` is the `u`; reads the next four
hex digits (rejecting an `x`/`X` in second place, as `int(esc, 16)`
would accept `0x..`). -/
def decodeUXXXX (s : List Char) (pos : ℕ) : Except JsonError ℕ :=
  let bad : Except JsonError ℕ :=
    Except.error ⟨"Invalid \\uXXXX escape", pos⟩
  match s[pos + 1]?, s[pos + 2]?, s[pos + 3]?, s[pos + 4]? with
  | some a, some b, some c, some d =>
    if b = 'x' ∨ b = 'X' then bad
    else
      match hexDigitVal a, hexDigitVal b, hexDigitVal c, hexDigitVal d with
      | some x1, some x2, some x3, some x4 =>
        Except.ok (((x1 * 16 + x2) * 16 + x3) * 16 + x4)
      | _, _, _, _ => bad
  | _, _, _, _ => bad

/-- `py_scanstring` main loop: `begin` is the index of the opening
quote, `i` the current scan position, `acc` the reversed decoded
characters. -/
def scanStringF : ℕ → List Char → ℕ → ℕ → List Char →
    Except JsonError (String × ℕ)
  | 0, _, begin0, _, _ => Except.error ⟨msgUnterminated, begin0⟩
  | fuel + 1, s, begin0, i, acc =>
    match s[i]? with
    | none => Except.error ⟨msgUnterminated, begin0⟩
    | some c =>
      if c = '"' then Except.ok (String.mk acc.reverse, i + 1)
      else if c = '\\' then
        match s[i + 1]? with
        | none => Except.error ⟨msgUnterminated, begin0⟩
        | some esc =>
          if esc = 'u' then
            match decodeUXXXX s (i + 1) with
            | Except.error e => Except.error e
            | Except.ok uni =>
              if 0xd800 ≤ uni ∧ uni ≤ 0xdbff
                  ∧ pySlice s (i + 6) (i + 8) = ['\\', 'u'] then
                match decodeUXXXX s (i + 7) with
                | Except.error e => Except.error e
                | Except.ok uni2 =>
                  if 0xdc00 ≤ uni2 ∧ uni2 ≤ 0xdfff then
                    scanStringF fuel s begin0 (i + 12)
                      (Char.ofNat
                        (0x10000 + (uni - 0xd800) * 1024 + (uni2 - 0xdc00))
                        :: acc)
                  else
                    scanStringF fuel s begin0 (i + 6) (Char.ofNat uni :: acc)
              else scanStringF fuel s begin0 (i + 6) (Char.ofNat uni :: acc)
          else
            match backslashChar esc with
            | some ch => scanStringF fuel s begin0 (i + 2) (ch :: acc)
            | none =>
              Except.error ⟨"Invalid \\escape", i⟩
      else if c.toNat < 32 then
        Except.error ⟨"Invalid control character at", i⟩
      else scanStringF fuel s begin0 (i + 1) (c :: acc)

/-- `scanstring(s, end)` with `end` the index after the opening quote. -/
def scanString (s : List Char) (e : ℕ) : Except JsonError (String × ℕ) :=
  scanStringF (s.length + 1) s (e - 1) e []

/-- Digit run scanner: returns the accumulated value and the index after
the last digit. -/
def scanDigitsF : ℕ → List Char → ℕ → ℕ → (ℕ × ℕ)
  | 0, _, i, acc => (acc, i)
  | fuel + 1, s, i, acc =>
    match s[i]? with
    | some c =>
      if '0' ≤ c ∧ c ≤ '9' then
        scanDigitsF fuel s (i + 1) (acc * 10 + (c.toNat - '0'.toNat))
      else (acc, i)
    | none => (acc, i)

def scanDigits (s : List Char) (i : ℕ) : ℕ × ℕ :=
  scanDigitsF (s.length + 1) s i 0

def isAsciiDigit (c : Char) : Bool := '0' ≤ c ∧ c ≤ '9'

/-- `NUMBER_RE.match(s, idx)`:
`(-?(?:0|[1-9]\d*))(\.\d+)?([eE][-+]?\d+)?`, returning the value and the
match end.  An integer-only match yields `parse_int` (exact); a match
with fraction or exponent yields `parse_float`, idealised as the exact
decimal rational. -/
def matchNumber (s : List Char) (idx : ℕ) : Option (ℚ × ℕ) :=
  let (neg, i0) := if s[idx]? = some '-' then (true, idx + 1) else (false, idx)
  match s[i0]? with
  | none => none
  | some c0 =>
    if ¬ isAsciiDigit c0 then none
    else
      let (intVal, intEnd) :=
        if c0 = '0' then (0, i0 + 1) else scanDigits s i0
      let (fracVal, fracLen, fracEnd, hasFrac) :=
        if s[intEnd]? = some '.' ∧ (s[intEnd + 1]?).any isAsciiDigit then
          let (fv, fe) := scanDigits s (intEnd + 1)
          (fv, fe - (intEnd + 1), fe, true)
        else (0, 0, intEnd, false)
      let (expVal, expNeg, expEnd, hasExp) :=
        if s[fracEnd]? = some 'e' ∨ s[fracEnd]? = some 'E' then
          let (esgn, e1) :=
            if s[fracEnd + 1]? = some '-' then (true, fracEnd + 2)
            else if s[fracEnd + 1]? = some '+' then (false, fracEnd + 2)
            else (false, fracEnd + 1)
          if (s[e1]?).any isAsciiDigit then
            let (ev, ee) := scanDigits s e1
            (ev, esgn, ee, true)
          else (0, false, fracEnd, false)
        else (0, false, fracEnd, false)
      if ¬ hasFrac ∧ ¬ hasExp then
        some (((if neg then -(intVal : ℤ) else (intVal : ℤ)) : ℤ), intEnd) |>.map
          (fun p => ((p.1 : ℚ), p.2))
      else
        let mag : ℚ := (intVal : ℚ) + (fracVal : ℚ) / (10 : ℚ) ^ fracLen
        let scaled : ℚ :=
          if expNeg then mag / (10 : ℚ) ^ expVal else mag * (10 : ℚ) ^ expVal
        some ((if neg then -scaled else scaled), expEnd)

/-- The whitespace-consuming block after a value separator:
`try: if s[end] in ws: end += 1; if s[end] in ws: end = skipWs(end + 1)`
(an IndexError leaves the index where it was). -/
def postSepWs (s : List Char) (e : ℕ) : ℕ :=
  match s[e]? with
  | some c =>
    if isJsonWs c then
      match s[e + 1]? with
      | some c2 => if isJsonWs c2 then skipWs s (e + 2) else e + 1
      | none => e + 1
    else e
  | none => e

/-- The `while True:` loop of `JSONArray`, entered with at least one
element pending; `scan` is `_scan_once` at the enclosing depth. -/
def arrLoopF (scan : List Char → ℕ → Except JsonError (JValue × ℕ)) :
    ℕ → List Char → ℕ → List JValue → Except JsonError (JValue × ℕ)
  | 0, _, e, _ => Except.error ⟨msgExpectingValue, e⟩
  | fuel + 1, s, e, acc =>
    match scan s e with
    | Except.error err => Except.error err
    | Except.ok (v, e1) =>
      let acc1 := v :: acc
      let e2 := if (s[e1]?).any isJsonWs then skipWs s (e1 + 1) else e1
      let nc := s[e2]?
      let e3 := e2 + 1
      if nc = some ']' then Except.ok (JValue.arr acc1.reverse, e3)
      else if nc ≠ some ',' then Except.error ⟨msgExpectingComma, e3 - 1⟩
      else arrLoopF scan fuel s (postSepWs s e3) acc1

/-- `JSONArray((s, end), scan_once)`: the pre-loop empty-array
look-ahead, then the loop. -/
def jsonArray (scan : List Char → ℕ → Except JsonError (JValue × ℕ))
    (s : List Char) (e : ℕ) : Except JsonError (JValue × ℕ) :=
  let e1 := if (s[e]?).any isJsonWs then skipWs s (e + 1) else e
  if s[e1]? = some ']' then Except.ok (JValue.arr [], e1 + 1)
  else arrLoopF scan (s.length + 1) s e1 []

/-- The `while True:` loop of `JSONObject`, entered at the index just
after the opening quote of a key. -/
def objLoopF (scan : List Char → ℕ → Except JsonError (JValue × ℕ)) :
    ℕ → List Char → ℕ → List (String × JValue) →
      Except JsonError (JValue × ℕ)
  | 0, _, e, _ => Except.error ⟨msgExpectingValue, e⟩
  | fuel + 1, s, e, acc =>
    match scanString s e with
    | Except.error err => Except.error err
    | Except.ok (key, e1) =>
      let (hasColon, e2) :=
        if s[e1]? = some ':' then (true, e1)
        else
          let ew := skipWs s e1
          (s[ew]? = some ':', ew)
      if ¬ hasColon then Except.error ⟨msgExpectingColon, e2⟩
      else
        let e3 := postSepWs s (e2 + 1)
        match scan s e3 with
        | Except.error err => Except.error err
        | Except.ok (v, e4) =>
          let acc1 := (key, v) :: acc
          let (nc, e5) :=
            match s[e4]? with
            | none => (none, e4)
            | some c =>
              if isJsonWs c then
                let ew := skipWs s (e4 + 1)
                (s[ew]?, ew)
              else (some c, e4)
          let e6 := e5 + 1
          if nc = some rbrace then Except.ok (JValue.obj acc1.reverse, e6)
          else if nc ≠ some ',' then
            Except.error ⟨msgExpectingComma, e6 - 1⟩
          else
            let e7 := skipWs s e6
            let nc2 := s[e7]?
            let e8 := e7 + 1
            if nc2 ≠ some '"' then
              Except.error ⟨msgExpectingPropertyName, e8 - 1⟩
            else objLoopF scan fuel s e8 acc1

/-- `JSONObject((s, end), ...)`: the pre-loop handling of whitespace,
the trivial empty object and a malformed first key, then the loop. -/
def jsonObject (scan : List Char → ℕ → Except JsonError (JValue × ℕ))
    (s : List Char) (e : ℕ) : Except JsonError (JValue × ℕ) :=
  let nc := s[e]?
  if nc = some '"' then objLoopF scan (s.length + 1) s (e + 1) []
  else
    let (nc1, e1) :=
      if (nc).any isJsonWs then
        let ew := skipWs s e
        (s[ew]?, ew)
      else (nc, e)
    if nc1 = some rbrace then Except.ok (JValue.obj [], e1 + 1)
    else if nc1 ≠ some '"' then
      Except.error ⟨msgExpectingPropertyName, e1⟩
    else objLoopF scan (s.length + 1) s (e1 + 1) []

/-- `_scan_once(s, idx)` with a `StopIteration` already rendered as the
`"Expecting value"` error its callers raise from it.  The fuel bounds
nesting depth and is never exhausted when it exceeds the input length. -/
def scanF : ℕ → List Char → ℕ → Except JsonError (JValue × ℕ)
  | 0, _, idx => Except.error ⟨msgExpectingValue, idx⟩
  | fuel + 1, s, idx =>
    match s[idx]? with
    | none => Except.error ⟨msgExpectingValue, idx⟩
    | some c =>
      if c = '"' then
        match scanString s (idx + 1) with
        | Except.error e => Except.error e
        | Except.ok (t, e1) => Except.ok (JValue.str t, e1)
      else if c = lbrace then jsonObject (scanF fuel) s (idx + 1)
      else if c = '[' then jsonArray (scanF fuel) s (idx + 1)
      else if c = 'n' ∧ pySlice s idx (idx + 4) = ("null").data then
        Except.ok (JValue.null, idx + 4)
      else if c = 't' ∧ pySlice s idx (idx + 4) = ("true").data then
        Except.ok (JValue.bool true, idx + 4)
      else if c = 'f' ∧ pySlice s idx (idx + 5) = ("false").data then
        Except.ok (JValue.bool false, idx + 5)
      else
        match matchNumber s idx with
        | some (q, e) => Except.ok (JValue.num q, e)
        | none =>
          if c = 'N' ∧ pySlice s idx (idx + 3) = ("NaN").data then
            Except.ok (JValue.nan, idx + 3)
          else if c = 'I' ∧ pySlice s idx (idx + 8) = ("Infinity").data then
            Except.ok (JValue.inf, idx + 8)
          else if c = '-' ∧ pySlice s idx (idx + 9) = ("-Infinity").data then
            Except.ok (JValue.negInf, idx + 9)
          else Except.error ⟨msgExpectingValue, idx⟩

/-- `json.loads` (`JSONDecoder.decode`): leading-whitespace skip,
`raw_decode`, trailing-whitespace skip, `"Extra data"` check. -/
def jsonLoads (t : String) : Except JsonError JValue :=
  let s := t.data
  match scanF (s.length + 1) s (skipWs s 0) with
  | Except.error e => Except.error e
  | Except.ok (v, e1) =>
    let e2 := skipWs s e1
    if e2 ≠ s.length then Except.error ⟨msgExtraData, e2⟩ else Except.ok v

/-! ## `CreativeRewriter._parse_json_response` / `_attempt_json_repair` -/

def strLower (t : String) : String := String.mk (t.data.map Char.toLower)

def listStartsWith : List Char → List Char → Bool
  | [], _ => true
  | _ :: _, [] => false
  | a :: as, b :: bs => a = b && listStartsWith as bs

/-- Python substring test `needle in hay`. -/
def containsSubF : List Char → List Char → Bool
  | hay, needle =>
    if listStartsWith needle hay then true
    else
      match hay with
      | [] => false
      | _ :: rest => containsSubF rest needle

def containsSub (hay needle : String) : Bool := containsSubF hay.data needle.data

/-- Python `str.strip()` whitespace (the characters relevant to text). -/
def isPyStripWs (c : Char) : Bool :=
  c = ' ' || c = '\t' || c = '\n' || c = '\r'
    || c = Char.ofNat 11 || c = Char.ofNat 12

def pyStrip (s : List Char) : List Char :=
  ((s.dropWhile isPyStripWs).reverse.dropWhile isPyStripWs).reverse

/-- The lowercased needles `_attempt_json_repair` searches the
lowercased error message for. -/
def needleCommaDelimiter : String :=
  "expecting " ++ apoS ++ "," ++ apoS ++ " delimiter"

def needlePropertyName : String := "expecting property name"

def needleExpecting : String := "expecting"

/-- The Fix-2 backward scan
`for i in range(pos - 1, max(0, pos - 20), -1)`: looks for a comma at
`i` such that the stripped text strictly between the comma and
`pos + 5` starts with a closing brace/bracket; returns that `i`. -/
def trailingCommaScan (s : List Char) (pos : ℕ) : ℕ → ℕ → Option ℕ
  | 0, _ => none
  | fuel + 1, i =>
    if i ≤ pos - 20 then none
    else
      (match s[i]? with
      | some c =>
        if c = ',' then
          let afterComma := pyStrip (pySlice s (i + 1) (pos + 5))
          match afterComma with
          | c0 :: _ =>
            if c0 = rbrace ∨ c0 = ']' then some i
            else trailingCommaScan s pos fuel (i - 1)
          | [] => trailingCommaScan s pos fuel (i - 1)
        else trailingCommaScan s pos fuel (i - 1)
      | none => trailingCommaScan s pos fuel (i - 1))

/-- Fix 1 of `_attempt_json_repair`: on an `Expecting ',' delimiter` or
`Expecting property name` failure at a quote directly preceded by a
closing brace or bracket, insert the missing comma before the quote. -/
def repairMissingComma (response : String) (e : JsonError) : Option String :=
  let s := response.data
  let pos := e.pos
  if containsSub (strLower e.msg) needleCommaDelimiter
      ∨ containsSub (strLower e.msg) needlePropertyName then
    if pos < s.length ∧ s[pos]? = some '"' then
      if 0 < pos ∧ s[pos - 1]? = some rbrace then
        some (String.mk (s.take pos ++ [','] ++ s.drop pos))
      else if 0 < pos ∧ s[pos - 1]? = some ']' then
        some (String.mk (s.take pos ++ [','] ++ s.drop pos))
      else none
    else none
  else none

/-- Fix 2 of `_attempt_json_repair`: on an `Expecting property name`
failure whose surrounding snippet holds a comma and a closer, scan
backwards (up to 19 positions) for a comma followed, after stripping
whitespace, by a closing brace/bracket, and delete it. -/
def repairTrailingComma (response : String) (e : JsonError) : Option String :=
  let s := response.data
  let pos := e.pos
  if containsSub (strLower e.msg) needlePropertyName then
    let snippet := pySlice s (pos - 10) (pos + 5)
    if snippet.contains ','
        ∧ (snippet.contains rbrace ∨ snippet.contains ']') then
      match trailingCommaScan s pos 21 (pos - 1) with
      | some i => some (String.mk (s.take i ++ s.drop (i + 1)))
      | none => none
    else none
  else none

/-- The closers Fix 3 appends: the counted missing `]`s then the counted
missing closing braces. -/
def missingClosers (response : String) : List Char :=
  List.replicate (response.data.count '[' - response.data.count ']') ']'
    ++ List.replicate
        (response.data.count lbrace - response.data.count rbrace) rbrace

/-- Fix 3 of `_attempt_json_repair`: on any `Expecting ...` failure
within five characters of end-of-input, append exactly the counted
number of unmatched closing brackets and braces. -/
def repairMissingClosers (response : String) (e : JsonError) : Option String :=
  let s := response.data
  if containsSub (strLower e.msg) needleExpecting ∧ s.length ≤ e.pos + 5 then
    if missingClosers response ≠ [] then
      some (String.mk (s ++ missingClosers response))
    else none
  else none

/-- `CreativeRewriter._attempt_json_repair(response, error)`: the three
targeted repairs tried in order, returning `none` when no repair is
attempted. -/
def attemptJsonRepair (response : String) (e : JsonError) : Option String :=
  match repairMissingComma response e with
  | some r => some r
  | none =>
    match repairTrailingComma response e with
    | some r => some r
    | none => repairMissingClosers response e

def listEndsWith (suffix l : List Char) : Bool :=
  listStartsWith suffix.reverse l.reverse

/-- The markdown-fence stripping at the top of `_parse_json_response`:
`strip()`, drop a leading ````json`` / ```` `` fence, drop a trailing
```` `` fence, `strip()` again (Python string operations are
per-character; `[7:]`, `[3:]` and `[:-3]` are the slices used). -/
def stripMarkdownFences (response : String) : String :=
  let r := pyStrip response.data
  let r := if listStartsWith ("```json").data r then r.drop 7 else r
  let r := if listStartsWith ("```").data r then r.drop 3 else r
  let r := if listEndsWith ("```").data r then r.take (r.length - 3) else r
  String.mk (pyStrip r)

/-- `CreativeRewriter._parse_json_response`: strip fences, parse, on
failure attempt a targeted repair and re-parse, and if that also fails
re-raise the original `JSONDecodeError`. -/
def parseJsonResponse (response : String) : Except JsonError JValue :=
  let r := stripMarkdownFences response
  match jsonLoads r with
  | Except.ok v => Except.ok v
  | Except.error e =>
    match attemptJsonRepair r e with
    | some repaired =>
      match jsonLoads repaired with
      | Except.ok v => Except.ok v
      | Except.error _ => Except.error e
    | none => Except.error e

/-! ## `RateLimiter.acquire`

Every admission decision happens inside `async with self.lock`: the
critical section cleans both windows (dropping timestamps older than the
1-second / 60-second horizon), checks both caps, and on success records
`now` in both windows before releasing the lock.  Because wall-clock
samples taken by successive critical sections are nondecreasing and
entries are only removed once expired, each cleaned window at an
admission holds exactly the previously admitted timestamps still inside
its horizon.  We therefore embed the serialized sequence of successful
admissions as a single history of admitted timestamps (most recent
first); a caller whose check fails changes no admission state.  Any
interleaving of arbitrarily many concurrent callers linearizes to such a
trace, since the lock serializes the check-and-record step. -/

/-- The traces of admitted-request timestamps realizable by
`RateLimiter.acquire` with per-second cap `rps` and per-minute cap
`rpm`.  `grant` is one successful critical section at time `t`: the
count of admitted timestamps within the trailing 1-second window must be
below `rps` and within the trailing 60-second window below `rpm`, and
then `t` is recorded. -/
inductive RLTrace (rps rpm : ℕ) : List ℚ → Prop
  | nil : RLTrace rps rpm []
  | grant (prev : List ℚ) (t : ℚ) (htrace : RLTrace rps rpm prev)
      (hmono : ∀ s ∈ prev, s ≤ t)
      (hsec : (prev.filter (fun s => decide (t - s < 1))).length < rps)
      (hmin : (prev.filter (fun s => decide (t - s < 60))).length < rpm) :
      RLTrace rps rpm (t :: prev)

theorem filter_length_mono {α : Type} (l : List α) (p q : α → Bool)
    (h : ∀ a ∈ l, p a = true → q a = true) :
    (l.filter p).length ≤ (l.filter q).length := by
  induction l with
  | nil => simp
  | cons a rest ih =>
    have hrest := ih (fun b hb => h b (List.mem_cons_of_mem _ hb))
    by_cases hpa : p a = true
    · have hqa := h a (List.mem_cons_self a rest) hpa
      simp [List.filter_cons, hpa, hqa]
      omega
    · simp only [List.filter_cons]
      rw [Bool.not_eq_true] at hpa
      rw [hpa]
      by_cases hqa : q a = true
      · simp [hqa]; omega
      · rw [Bool.not_eq_true] at hqa
        rw [hqa]
        exact hrest

/-- The count of trace entries inside any sliding window `(w, w + len]`
is bounded by the cap that every admission checked against its trailing
window of length `len`. -/
theorem rltrace_window_bound {rps rpm : ℕ} {trace : List ℚ}
    (h : RLTrace rps rpm trace) (len : ℚ) (cap : ℕ)
    (hpick : (len = 1 ∧ cap = rps) ∨ (len = 60 ∧ cap = rpm)) (w : ℚ) :
    (trace.filter (fun s => decide (w < s ∧ s ≤ w + len))).length ≤ cap := by
  induction h with
  | nil => simp
  | @grant prev t htrace hmono hsec hmin ih =>
    by_cases hin : w < t ∧ t ≤ w + len
    · have hmono2 : (prev.filter (fun s => decide (w < s ∧ s ≤ w + len))).length
          ≤ (prev.filter (fun s => decide (t - s < len))).length := by
        apply filter_length_mono
        intro s _ hs
        rw [decide_eq_true_eq] at hs ⊢
        have h1 : w < s := hs.1
        have h2 : t ≤ w + len := hin.2
        linarith
      have hlt : (prev.filter (fun s => decide (t - s < len))).length < cap := by
        rcases hpick with ⟨hl, hc⟩ | ⟨hl, hc⟩
        · rw [hl, hc]; exact hsec
        · rw [hl, hc]; exact hmin
      have : (prev.filter (fun s => decide (w < s ∧ s ≤ w + len))).length < cap :=
        lt_of_le_of_lt hmono2 hlt
      simp only [List.filter_cons]
      rw [if_pos (decide_eq_true_eq.mpr hin)]
      simpa using this
    · simp only [List.filter_cons]
      rw [if_neg (by simpa using hin)]
      exact ih

/-- C3: for every per-second cap `S` and per-minute cap `M` and every
serialized admission trace realizable by concurrent callers of
`RateLimiter.acquire`, no sliding 1-second window `(w, w + 1]` contains
more than `S` admitted requests and no sliding 60-second window
`(w, w + 60]` contains more than `M`: each admission checks both caps
and records its timestamp while holding the lock. -/
theorem rate_limiter_never_over_admits (rps rpm : ℕ) (trace : List ℚ)
    (h : RLTrace rps rpm trace) :
    (∀ w : ℚ, (trace.filter
        (fun s => decide (w < s ∧ s ≤ w + 1))).length ≤ rps)
    ∧ (∀ w : ℚ, (trace.filter
        (fun s => decide (w < s ∧ s ≤ w + 60))).length ≤ rpm) :=
  ⟨fun w => rltrace_window_bound h 1 rps (Or.inl ⟨rfl, rfl⟩) w,
   fun w => rltrace_window_bound h 60 rpm (Or.inr ⟨rfl, rfl⟩) w⟩

/-! ## `OpenRouterClient.generate`: retry loop

The attempt loop `for attempt in range(self.max_retries)` is embedded as
a function of the per-attempt outcome (the network and the remote
endpoint are oracles `ℕ → AttemptOutcome`) and of the sampled jitter
(`random.uniform(0, 0.5 * base_wait)` is an oracle `ℕ → ℚ`). -/

/-- What one HTTP attempt can produce: a 2xx response body, an
`aiohttp.ClientResponseError` from `raise_for_status` carrying the HTTP
status, or any other exception (timeout, connection reset, …). -/
inductive AttemptOutcome where
  | success (text : String)
  | httpError (status : ℕ) (msg : String)
  | otherError (msg : String)
deriving DecidableEq, Repr

/-- The terminal result of `generate`. -/
inductive CallResult where
  | ok (text : String)
  | clientError (status : ℕ) (msg : String)
  | exhausted (attempts : ℕ) (lastMsg : String)
  | noAttempts
deriving DecidableEq, Repr

/-- The observable effect of one `generate` call: the result, the
backoff sleeps performed, and the statistics counter increments. -/
structure GenCall where
  result : CallResult
  waits : List ℚ
  totalRequests : ℕ
  successfulRequests : ℕ
  failedRequests : ℕ
deriving DecidableEq, Repr

def AttemptOutcome.errMsg : AttemptOutcome → String
  | .success _ => ""
  | .httpError _ m => m
  | .otherError m => m

/-- The retry loop body: `remaining` attempts left, `attempt` the
current index.  A 4xx status other than 429 re-raises immediately; any
other failure sleeps `2 ** attempt + uniform(0, 0.5 * 2 ** attempt)`
when attempts remain and otherwise raises the terminal failure with the
last error's detail. -/
def generateLoop (out : ℕ → AttemptOutcome) (jit : ℕ → ℚ) (maxRetries : ℕ) :
    ℕ → ℕ → List ℚ → ℕ → ℕ → ℕ → GenCall
  | 0, _, waits, tot, succ, fail =>
    ⟨CallResult.noAttempts, waits.reverse, tot, succ, fail⟩
  | remaining + 1, attempt, waits, tot, succ, fail =>
    let tot1 := tot + 1
    match out attempt with
    | AttemptOutcome.success text =>
      ⟨CallResult.ok text, waits.reverse, tot1, succ + 1, fail⟩
    | AttemptOutcome.httpError status msg =>
      let fail1 := fail + 1
      if 400 ≤ status ∧ status < 500 ∧ status ≠ 429 then
        ⟨CallResult.clientError status msg, waits.reverse, tot1, succ, fail1⟩
      else if attempt < maxRetries - 1 then
        generateLoop out jit maxRetries remaining (attempt + 1)
          (((2 : ℚ) ^ attempt + jit attempt) :: waits) tot1 succ fail1
      else
        ⟨CallResult.exhausted maxRetries msg, waits.reverse, tot1, succ, fail1⟩
    | AttemptOutcome.otherError msg =>
      let fail1 := fail + 1
      if attempt < maxRetries - 1 then
        generateLoop out jit maxRetries remaining (attempt + 1)
          (((2 : ℚ) ^ attempt + jit attempt) :: waits) tot1 succ fail1
      else
        ⟨CallResult.exhausted maxRetries msg, waits.reverse, tot1, succ, fail1⟩

/-- `OpenRouterClient.generate` after the rate-limiter gate: run the
attempt loop from attempt 0 with zeroed per-call counter deltas. -/
def generate (out : ℕ → AttemptOutcome) (jit : ℕ → ℚ)
    (maxRetries : ℕ) : GenCall :=
  generateLoop out jit maxRetries maxRetries 0 [] 0 0 0

/-- An outcome the loop retries: a 429 or 5xx (or other non-4xx) HTTP
error, or a non-HTTP failure; never a success, never a non-429 4xx. -/
def Retryable : AttemptOutcome → Prop
  | AttemptOutcome.success _ => False
  | AttemptOutcome.httpError s _ => ¬ (400 ≤ s ∧ s < 500 ∧ s ≠ 429)
  | AttemptOutcome.otherError _ => True

theorem generateLoop_exhausts (out : ℕ → AttemptOutcome) (jit : ℕ → ℚ)
    (maxRetries : ℕ) :
    ∀ remaining attempt waits tot succ fail,
      attempt + remaining = maxRetries → 0 < remaining →
      (∀ a, attempt ≤ a → a < maxRetries → Retryable (out a)) →
      generateLoop out jit maxRetries remaining attempt waits tot succ fail =
        ⟨CallResult.exhausted maxRetries ((out (maxRetries - 1)).errMsg),
         waits.reverse ++ (List.range' attempt (maxRetries - 1 - attempt)).map
           (fun a => (2 : ℚ) ^ a + jit a),
         tot + remaining, succ, fail + remaining⟩ := by
  intro remaining
  induction remaining with
  | zero => intro _ _ _ _ _ _ h0; omega
  | succ r ih =>
    intro attempt waits tot succ fail hsum _ hretry
    have hlast : attempt + r = maxRetries - 1 := by omega
    have hre := hretry attempt (le_refl _) (by omega)
    unfold generateLoop
    rcases r with _ | r2
    · -- last attempt: attempt = maxRetries - 1, no further retry
      have hat : attempt = maxRetries - 1 := by omega
      have hnotlt : ¬ attempt < maxRetries - 1 := by omega
      have hrange : maxRetries - 1 - attempt = 0 := by omega
      cases hout : out attempt with
      | success text => rw [hout] at hre; exact absurd hre (by simp [Retryable])
      | httpError status msg =>
        rw [hout] at hre
        simp only [Retryable] at hre
        simp only [hout, if_neg hre, if_neg hnotlt, hrange, List.range'_zero,
          List.map_nil, List.append_nil, hat]
        rw [← hat, hout]
        simp [AttemptOutcome.errMsg]
      | otherError msg =>
        simp only [hout, if_neg hnotlt, hrange, List.range'_zero,
          List.map_nil, List.append_nil, hat]
        rw [← hat, hout]
        simp [AttemptOutcome.errMsg]
    · -- at least one more attempt remains
      have hlt : attempt < maxRetries - 1 := by omega
      have hrec := ih (attempt + 1)
        (((2 : ℚ) ^ attempt + jit attempt) :: waits) (tot + 1) succ (fail + 1)
        (by omega) (by omega)
        (fun a ha hb => hretry a (by omega) hb)
      have hrange : maxRetries - 1 - attempt = (maxRetries - 1 - (attempt + 1)) + 1 := by
        omega
      cases hout : out attempt with
      | success text => rw [hout] at hre; exact absurd hre (by simp [Retryable])
      | httpError status msg =>
        rw [hout] at hre
        simp only [Retryable] at hre
        simp only [hout, if_neg hre, if_pos hlt]
        rw [hrec]
        simp only [List.reverse_cons, hrange, List.range', List.map_cons,
          List.append_assoc, List.singleton_append]
        congr 1 <;> omega
      | otherError msg =>
        simp only [hout, if_pos hlt]
        rw [hrec]
        simp only [List.reverse_cons, hrange, List.range', List.map_cons,
          List.append_assoc, List.singleton_append]
        congr 1 <;> omega

/-- C4: in `OpenRouterClient.generate`, a 4xx HTTP response other than
429 fails permanently on the first attempt with no retry and no backoff
sleep, while outcomes that are 429s or transient failures (timeouts,
5xx, connection resets) are retried up to `max_retries` attempts with
backoff `2 ** attempt` plus the sampled jitter before each retry, and
exhausting all retries yields the terminal failure carrying the last
error's detail. -/
theorem generate_retry_classification (out : ℕ → AttemptOutcome)
    (jit : ℕ → ℚ) (maxRetries : ℕ) (hpos : 0 < maxRetries) :
    (∀ s m, out 0 = AttemptOutcome.httpError s m →
      400 ≤ s → s < 500 → s ≠ 429 →
      generate out jit maxRetries =
        ⟨CallResult.clientError s m, [], 1, 0, 1⟩)
    ∧ ((∀ a, a < maxRetries → Retryable (out a)) →
      generate out jit maxRetries =
        ⟨CallResult.exhausted maxRetries ((out (maxRetries - 1)).errMsg),
         (List.range (maxRetries - 1)).map (fun a => (2 : ℚ) ^ a + jit a),
         maxRetries, 0, maxRetries⟩) := by
  constructor
  · intro s m hout h4 h5 h429
    unfold generate
    rcases maxRetries with _ | r
    · omega
    · unfold generateLoop
      simp [hout, h4, h5, h429]
  · intro hretry
    unfold generate
    have := generateLoop_exhausts out jit maxRetries maxRetries 0 [] 0 0 0
      (by omega) hpos (fun a _ hb => hretry a hb)
    rw [this]
    simp [List.range_eq_range']

/-! ## `DYKPipeline.run_async`: result collection and stage sequencing

Per-stage fan-outs are `asyncio.gather(*tasks, return_exceptions=True)`
calls: each task settles independently with either its parsed value or
its captured exception, and `gather` returns the outcomes positionally
in task-creation order, regardless of completion order.  Stage results
are then processed by `zip`-ping them with the per-task inputs. -/

/-- One settled task outcome under `return_exceptions=True`. -/
inductive TaskOutcome where
  | exc (msg : String)
  | val (v : JValue)

/-- Python `dict` lookup for `result["insights"]`-style access on a
parsed object (`dict(pairs)` keeps the last value of a duplicated key). -/
def dictLookup (pairs : List (String × JValue)) (k : String) : Option JValue :=
  (pairs.reverse.find? (fun p => p.1 = k)).map (fun p => p.2)

/-- `asyncio.gather` result assembly: tasks complete in an arbitrary
order, producing `(task index, outcome)` events; `gather` returns the
outcome of task `i` at position `i` of its result list. -/
def assembleResults (N : ℕ) (completed : List (Fin N × TaskOutcome)) :
    List (Option TaskOutcome) :=
  (List.finRange N).map
    (fun i => (completed.find? (fun p => p.1 = i)).map (fun p => p.2))

/-- The stage-1 statistics and survivors accumulated by the generation
result-processing loop. -/
structure GenStage (μ : Type) where
  successes : ℕ
  failures : ℕ
  insights : List (JValue × μ)

/-- The `for result, metadata in zip(results, task_metadata)` loop of
step 2: an exception counts as a generation failure; a `dict` containing
the key `"insights"` counts as a success and contributes its insights,
each tagged with the task's own metadata; any other result shape
(including a bare JSON array) falls through both branches, uncounted.
Iterating a non-list `"insights"` payload is outside the model (no
insights contributed). -/
def processGenerationResults {μ : Type} (results : List TaskOutcome)
    (metadata : List μ) : GenStage μ :=
  (results.zip metadata).foldl
    (fun st rm =>
      match rm.1 with
      | TaskOutcome.exc _ => { st with failures := st.failures + 1 }
      | TaskOutcome.val v =>
        match v with
        | JValue.obj pairs =>
          match dictLookup pairs ("insights") with
          | some (JValue.arr items) =>
            { st with successes := st.successes + 1,
                      insights := st.insights
                        ++ items.map (fun it => (it, rm.2)) }
          | some _ => { st with successes := st.successes + 1 }
          | none => st
        | _ => st)
    ⟨0, 0, []⟩

/-- What one generation task outcome is counted as. -/
def isGenSuccess : TaskOutcome → Bool
  | TaskOutcome.val (JValue.obj pairs) =>
    (dictLookup pairs ("insights")).isSome
  | _ => false

def isExc : TaskOutcome → Bool
  | TaskOutcome.exc _ => true
  | _ => false

/-- The insights one generation task outcome contributes. -/
def extractInsights : TaskOutcome → List JValue
  | TaskOutcome.val (JValue.obj pairs) =>
    match dictLookup pairs ("insights") with
    | some (JValue.arr items) => items
    | _ => []
  | _ => []

/-- Characterisation of the generation result-processing loop: success
and failure counters count exactly the object-with-`"insights"` results
and the exceptions, and each contributed insight is tagged with the
metadata at its own task's position. -/
theorem processGenerationResults_spec {μ : Type} (results : List TaskOutcome)
    (metadata : List μ) (hlen : results.length = metadata.length) :
    (processGenerationResults results metadata).successes
        = results.countP isGenSuccess
    ∧ (processGenerationResults results metadata).failures
        = results.countP isExc
    ∧ (processGenerationResults results metadata).insights
        = (results.zip metadata).flatMap
            (fun rm => (extractInsights rm.1).map (fun it => (it, rm.2))) := by
  have key : ∀ (l : List (TaskOutcome × μ)) (st : GenStage μ),
      (l.foldl (fun st rm =>
        match rm.1 with
        | TaskOutcome.exc _ => { st with failures := st.failures + 1 }
        | TaskOutcome.val v =>
          match v with
          | JValue.obj pairs =>
            match dictLookup pairs ("insights") with
            | some (JValue.arr items) =>
              { st with successes := st.successes + 1,
                        insights := st.insights
                          ++ items.map (fun it => (it, rm.2)) }
            | some _ => { st with successes := st.successes + 1 }
            | none => st
          | _ => st) st) =
      ⟨st.successes + (l.map Prod.fst).countP isGenSuccess,
       st.failures + (l.map Prod.fst).countP isExc,
       st.insights ++ l.flatMap
         (fun rm => (extractInsights rm.1).map (fun it => (it, rm.2)))⟩ := by
    intro l
    induction l with
    | nil => intro st; simp
    | cons rm rest ih =>
      intro st
      obtain ⟨r, m⟩ := rm
      cases r with
      | exc msg =>
        simp only [List.foldl_cons, ih, List.map_cons, List.countP_cons,
          List.flatMap_cons]
        simp [isGenSuccess, isExc, extractInsights]
        omega
      | val v =>
        cases v with
        | obj pairs =>
          rcases hfind : dictLookup pairs ("insights") with _ | vi
          · simp only [List.foldl_cons, hfind, ih, List.map_cons,
              List.countP_cons, List.flatMap_cons]
            simp [isGenSuccess, isExc, extractInsights, hfind]
          · cases vi with
            | arr items =>
              simp only [List.foldl_cons, hfind, ih, List.map_cons,
                List.countP_cons, List.flatMap_cons]
              simp [isGenSuccess, isExc, extractInsights, hfind]
              omega
            | null =>
              simp only [List.foldl_cons, hfind, ih, List.map_cons,
                List.countP_cons, List.flatMap_cons]
              simp [isGenSuccess, isExc, extractInsights, hfind]
              omega
            | bool b =>
              simp only [List.foldl_cons, hfind, ih, List.map_cons,
                List.countP_cons, List.flatMap_cons]
              simp [isGenSuccess, isExc, extractInsights, hfind]
              omega
            | num q =>
              simp only [List.foldl_cons, hfind, ih, List.map_cons,
                List.countP_cons, List.flatMap_cons]
              simp [isGenSuccess, isExc, extractInsights, hfind]
              omega
            | nan =>
              simp only [List.foldl_cons, hfind, ih, List.map_cons,
                List.countP_cons, List.flatMap_cons]
              simp [isGenSuccess, isExc, extractInsights, hfind]
              omega
            | inf =>
              simp only [List.foldl_cons, hfind, ih, List.map_cons,
                List.countP_cons, List.flatMap_cons]
              simp [isGenSuccess, isExc, extractInsights, hfind]
              omega
            | negInf =>
              simp only [List.foldl_cons, hfind, ih, List.map_cons,
                List.countP_cons, List.flatMap_cons]
              simp [isGenSuccess, isExc, extractInsights, hfind]
              omega
            | str t =>
              simp only [List.foldl_cons, hfind, ih, List.map_cons,
                List.countP_cons, List.flatMap_cons]
              simp [isGenSuccess, isExc, extractInsights, hfind]
              omega
            | obj kvs =>
              simp only [List.foldl_cons, hfind, ih, List.map_cons,
                List.countP_cons, List.flatMap_cons]
              simp [isGenSuccess, isExc, extractInsights, hfind]
              omega
        | null => simp [List.foldl_cons, ih, List.countP_cons, isGenSuccess,
            isExc, extractInsights]
        | bool b => simp [List.foldl_cons, ih, List.countP_cons, isGenSuccess,
            isExc, extractInsights]
        | num q => simp [List.foldl_cons, ih, List.countP_cons, isGenSuccess,
            isExc, extractInsights]
        | nan => simp [List.foldl_cons, ih, List.countP_cons, isGenSuccess,
            isExc, extractInsights]
        | inf => simp [List.foldl_cons, ih, List.countP_cons, isGenSuccess,
            isExc, extractInsights]
        | negInf => simp [List.foldl_cons, ih, List.countP_cons, isGenSuccess,
            isExc, extractInsights]
        | str t => simp [List.foldl_cons, ih, List.countP_cons, isGenSuccess,
            isExc, extractInsights]
        | arr elems => simp [List.foldl_cons, ih, List.countP_cons,
            isGenSuccess, isExc, extractInsights]
  have h0 := key (results.zip metadata) ⟨0, 0, []⟩
  unfold processGenerationResults
  rw [h0]
  have hmap : (results.zip metadata).map Prod.fst = results :=
    List.map_fst_zip results metadata (by omega)
  rw [hmap]
  refine ⟨by simp, by simp, by simp⟩

theorem find?_map_pair {N : ℕ} (outcome : Fin N → TaskOutcome)
    (order : List (Fin N)) (i : Fin N) (hi : i ∈ order) :
    (order.map (fun j => (j, outcome j))).find?
        (fun p => p.1 = i) = some (i, outcome i) := by
  induction order with
  | nil => cases hi
  | cons j rest ih =>
    by_cases hj : j = i
    · subst hj
      simp [List.find?]
    · have hirest : i ∈ rest := by
        rcases List.mem_cons.mp hi with h | h
        · exact absurd h.symm hj
        · exact h
      simp only [List.map_cons, List.find?]
      rw [show (decide (j = i)) = false from decide_eq_false hj]
      exact ih hirest

/-- C9: for a batch of `N` concurrently launched stage tasks settling in
an arbitrary completion order, `gather` returns each task's outcome at
that task's own input position (so a processed record is associated with
its original input, not with arrival order); a task `k` that raises is
recorded as a per-record failure, and every sibling's insights still
appear in the collected output tagged with the sibling's own metadata. -/
theorem batch_failure_isolation {μ : Type} (N : ℕ)
    (outcome : Fin N → TaskOutcome) (md : Fin N → μ)
    (order : List (Fin N)) (horder : ∀ i : Fin N, i ∈ order)
    (k : Fin N) (msg : String) (hk : outcome k = TaskOutcome.exc msg) :
    assembleResults N (order.map (fun i => (i, outcome i)))
        = (List.finRange N).map (fun i => some (outcome i))
    ∧ 1 ≤ (processGenerationResults ((List.finRange N).map outcome)
        ((List.finRange N).map md)).failures
    ∧ (processGenerationResults ((List.finRange N).map outcome)
        ((List.finRange N).map md)).insights
      = (List.finRange N).flatMap
          (fun i => (extractInsights (outcome i)).map (fun it => (it, md i))) := by
  have hspec := processGenerationResults_spec
    ((List.finRange N).map outcome) ((List.finRange N).map md) (by simp)
  refine ⟨?_, ?_, ?_⟩
  · unfold assembleResults
    apply List.map_congr_left
    intro i _
    rw [find?_map_pair outcome order i (horder i)]
    rfl
  · rw [hspec.2.1]
    have hmem : TaskOutcome.exc msg ∈ (List.finRange N).map outcome := by
      rw [← hk]
      exact List.mem_map_of_mem outcome (List.mem_finRange k)
    exact (List.countP_pos_iff).mpr ⟨TaskOutcome.exc msg, hmem, by simp [isExc]⟩
  · rw [hspec.2.2]
    rw [List.zip_map' outcome md (List.finRange N)]
    rw [List.flatMap_map]

/-! ## `DYKPipeline.run_async`: stage short-circuiting (steps 2-6) -/

/-- The creative-rewriting result-processing loop (step 4): the same
branch structure as step 2, keyed on `"variations"`; each variation
record carries its parent insight. -/
def processCreativeResults {α : Type} (unique : List α)
    (results : List TaskOutcome) : ℕ × ℕ × List (JValue × α) :=
  (unique.zip results).foldl
    (fun st ir =>
      match ir.2 with
      | TaskOutcome.exc _ => (st.1, st.2.1 + 1, st.2.2)
      | TaskOutcome.val v =>
        match v with
        | JValue.obj pairs =>
          match dictLookup pairs ("variations") with
          | some (JValue.arr items) =>
            (st.1 + 1, st.2.1, st.2.2 ++ items.map (fun it => (it, ir.1)))
          | some _ => (st.1 + 1, st.2.1, st.2.2)
          | none => st
        | _ => st)
    (0, 0, [])

/-- What step 5 attaches to a variation as its `"evaluation"` field. -/
inductive EvalAttachment where
  | failedExc (err : String)
  | ok (v : JValue)
  | failedUnknown

/-- The evaluation result-processing loop (step 5): an exception or an
unrecognised shape is a counted failure, a `dict` with `"criteria"` a
success; unlike the earlier stages, EVERY variation is appended to the
final list, with its evaluation attachment. -/
def processEvalResults {α : Type} (variations : List α)
    (results : List TaskOutcome) : ℕ × ℕ × List (α × EvalAttachment) :=
  (variations.zip results).foldl
    (fun st vr =>
      match vr.2 with
      | TaskOutcome.exc m => (st.1, st.2.1 + 1, st.2.2 ++ [(vr.1, EvalAttachment.failedExc m)])
      | TaskOutcome.val v =>
        match v with
        | JValue.obj pairs =>
          match dictLookup pairs ("criteria") with
          | some _ => (st.1 + 1, st.2.1, st.2.2 ++ [(vr.1, EvalAttachment.ok v)])
          | none => (st.1, st.2.1 + 1, st.2.2 ++ [(vr.1, EvalAttachment.failedUnknown)])
        | _ => (st.1, st.2.1 + 1, st.2.2 ++ [(vr.1, EvalAttachment.failedUnknown)]))
    (0, 0, [])

/-- The observable outcome of one `run_async` call: the returned record
list, whether step 6 (saving the JSON/CSV artifact) was reached, and
which stages ran. -/
structure RunOutcome (μ : Type) where
  final : List ((JValue × (JValue × μ)) × EvalAttachment)
  artifactSaved : Bool
  ranDedup : Bool
  ranCreative : Bool
  ranEval : Bool

/-- The stage sequencing of `run_async`: process generation results; if
zero insights were generated, `return []` (steps 3-6 never run); else
deduplicate via connected components keeping the lowest-indexed member
per cluster; rewrite the survivors; if zero variations were created,
`return []` (steps 5-6 never run); else evaluate every variation and
save the artifact.  The LLM stages are oracles giving each task's
settled outcome, and the embedding model is an oracle giving the
similarity matrix of the generated batch. -/
def runSkeleton {μ : Type} (genResults : List TaskOutcome) (genMd : List μ)
    (sim : (l : List (JValue × μ)) → Fin l.length → Fin l.length → ℚ)
    (th : ℚ) (creativeOf : ℕ → TaskOutcome) (evalOf : ℕ → TaskOutcome) :
    RunOutcome μ :=
  let gen := processGenerationResults genResults genMd
  let allInsights := gen.insights
  if allInsights.length = 0 then ⟨[], false, false, false, false⟩
  else
    let unique := uniqueInsights allInsights (sim allInsights) th
    let creativeRes := (List.range unique.length).map creativeOf
    let cr := processCreativeResults unique creativeRes
    let variations := cr.2.2
    if variations.length = 0 then ⟨[], false, true, true, false⟩
    else
      let evalRes := (List.range variations.length).map evalOf
      let er := processEvalResults variations evalRes
      ⟨er.2.2, true, true, true, true⟩

/-! ## C5: the parse/repair contract -/

/-- Failure signature of repair rule 1, as the claim states it: a
missing delimiter reported at a quote immediately following a closing
brace or bracket. -/
def MissingDelimiterSig (s : String) (e : JsonError) : Prop :=
  (containsSub (strLower e.msg) needleCommaDelimiter = true
    ∨ containsSub (strLower e.msg) needlePropertyName = true)
  ∧ e.pos < s.data.length
  ∧ s.data[e.pos]? = some '"'
  ∧ 0 < e.pos
  ∧ (s.data[e.pos - 1]? = some rbrace ∨ s.data[e.pos - 1]? = some ']')

/-- Failure signature of repair rule 2: a property-name failure with a
trailing separator just before a closer — a comma within the backward
scan range that is followed, up to whitespace, by a closing
brace/bracket. -/
def TrailingSeparatorSig (s : String) (e : JsonError) : Prop :=
  containsSub (strLower e.msg) needlePropertyName = true
  ∧ ∃ i : ℕ, e.pos - 20 < i ∧ i ≤ e.pos - 1
      ∧ s.data[i]? = some ','
      ∧ ∃ c0 rest, pyStrip (pySlice s.data (i + 1) (e.pos + 5)) = c0 :: rest
          ∧ (c0 = rbrace ∨ c0 = ']')

/-- Failure signature of repair rule 3: an `Expecting ...` failure whose
position is within five characters of end-of-string, with closing
brackets or braces missing relative to the counted openers. -/
def MissingClosersSig (s : String) (e : JsonError) : Prop :=
  containsSub (strLower e.msg) needleExpecting = true
  ∧ s.data.length ≤ e.pos + 5
  ∧ (s.data.count ']' < s.data.count '['
    ∨ s.data.count rbrace < s.data.count lbrace)

theorem trailingCommaScan_spec (s : List Char) (pos : ℕ) :
    ∀ fuel i j, trailingCommaScan s pos fuel i = some j →
      pos - 20 < j ∧ j ≤ i ∧ s[j]? = some ','
      ∧ ∃ c0 rest, pyStrip (pySlice s (j + 1) (pos + 5)) = c0 :: rest
          ∧ (c0 = rbrace ∨ c0 = ']') := by
  intro fuel
  induction fuel with
  | zero => intro i j h; exact absurd h (by simp [trailingCommaScan])
  | succ f ih =>
    intro i j h
    unfold trailingCommaScan at h
    by_cases hle : i ≤ pos - 20
    · rw [if_pos hle] at h; exact absurd h (by simp)
    · rw [if_neg hle] at h
      rcases hch : s[i]? with _ | c
      · rw [hch] at h
        dsimp only at h
        have := ih (i - 1) j h
        exact ⟨this.1, le_trans this.2.1 (Nat.sub_le i 1), this.2.2⟩
      · rw [hch] at h
        dsimp only at h
        by_cases hc : c = ','
        · rw [if_pos hc] at h
          rcases hstrip : pyStrip (pySlice s (i + 1) (pos + 5)) with _ | ⟨c0, rest⟩
          · rw [hstrip] at h
            dsimp only at h
            have := ih (i - 1) j h
            exact ⟨this.1, le_trans this.2.1 (Nat.sub_le i 1), this.2.2⟩
          · rw [hstrip] at h
            dsimp only at h
            by_cases hc0 : c0 = rbrace ∨ c0 = ']'
            · rw [if_pos hc0] at h
              obtain rfl : i = j := by injection h
              exact ⟨by omega, le_refl _, by rw [hch, hc],
                ⟨c0, rest, hstrip, hc0⟩⟩
            · rw [if_neg hc0] at h
              have := ih (i - 1) j h
              exact ⟨this.1, le_trans this.2.1 (Nat.sub_le i 1), this.2.2⟩
        · rw [if_neg hc] at h
          have := ih (i - 1) j h
          exact ⟨this.1, le_trans this.2.1 (Nat.sub_le i 1), this.2.2⟩

theorem repairMissingComma_spec (s : String) (e : JsonError) (r : String)
    (h : repairMissingComma s e = some r) :
    MissingDelimiterSig s e
    ∧ r = String.mk (s.data.take e.pos ++ [','] ++ s.data.drop e.pos) := by
  unfold repairMissingComma at h
  by_cases h1 : containsSub (strLower e.msg) needleCommaDelimiter
      ∨ containsSub (strLower e.msg) needlePropertyName
  · rw [if_pos h1] at h
    by_cases h2 : e.pos < s.data.length ∧ s.data[e.pos]? = some '"'
    · rw [if_pos h2] at h
      by_cases h3 : 0 < e.pos ∧ s.data[e.pos - 1]? = some rbrace
      · rw [if_pos h3] at h
        refine ⟨⟨h1, h2.1, h2.2, h3.1, Or.inl h3.2⟩, ?_⟩
        injection h with h; exact h.symm
      · rw [if_neg h3] at h
        by_cases h4 : 0 < e.pos ∧ s.data[e.pos - 1]? = some ']'
        · rw [if_pos h4] at h
          refine ⟨⟨h1, h2.1, h2.2, h4.1, Or.inr h4.2⟩, ?_⟩
          injection h with h; exact h.symm
        · rw [if_neg h4] at h; exact absurd h (by simp)
    · rw [if_neg h2] at h; exact absurd h (by simp)
  · rw [if_neg h1] at h; exact absurd h (by simp)

theorem repairTrailingComma_spec (s : String) (e : JsonError) (r : String)
    (h : repairTrailingComma s e = some r) :
    TrailingSeparatorSig s e
    ∧ ∃ i : ℕ, r = String.mk (s.data.take i ++ s.data.drop (i + 1)) := by
  unfold repairTrailingComma at h
  by_cases h1 : containsSub (strLower e.msg) needlePropertyName
  · rw [if_pos (by exact h1)] at h
    set snippet := pySlice s.data (e.pos - 10) (e.pos + 5) with hsnip
    by_cases h2 : snippet.contains ','
        ∧ (snippet.contains rbrace ∨ snippet.contains ']')
    · rw [if_pos h2] at h
      rcases hscan : trailingCommaScan s.data e.pos 21 (e.pos - 1) with _ | i
      · rw [hscan] at h; exact absurd h (by simp)
      · rw [hscan] at h
        have hspec := trailingCommaScan_spec s.data e.pos 21 (e.pos - 1) i hscan
        refine ⟨⟨h1, i, hspec.1, hspec.2.1, hspec.2.2.1, hspec.2.2.2⟩, i, ?_⟩
        injection h with h; exact h.symm
    · rw [if_neg h2] at h; exact absurd h (by simp)
  · rw [if_neg (by exact h1)] at h; exact absurd h (by simp)

theorem repairMissingClosers_spec (s : String) (e : JsonError) (r : String)
    (h : repairMissingClosers s e = some r) :
    MissingClosersSig s e
    ∧ r = String.mk (s.data ++ missingClosers s) := by
  unfold repairMissingClosers at h
  by_cases h1 : containsSub (strLower e.msg) needleExpecting
      ∧ s.data.length ≤ e.pos + 5
  · rw [if_pos h1] at h
    by_cases h2 : missingClosers s ≠ []
    · rw [if_pos h2] at h
      have hcounts : s.data.count ']' < s.data.count '['
          ∨ s.data.count rbrace < s.data.count lbrace := by
        by_contra hno
        push_neg at hno
        apply h2
        unfold missingClosers
        have e1 : s.data.count '[' - s.data.count ']' = 0 := by omega
        have e2 : s.data.count lbrace - s.data.count rbrace = 0 := by omega
        rw [e1, e2]
        simp
      refine ⟨⟨h1.1, h1.2, hcounts⟩, ?_⟩
      injection h with h; exact h.symm
    · rw [if_neg h2] at h; exact absurd h (by simp)
  · rw [if_neg h1] at h; exact absurd h (by simp)

/-- C5: the stage-worker JSON parser returns the direct parse result of
already-valid (fence-stripped) input, with no repair applied; a repair
is attempted only when the parse failure matches one of the three
targeted signatures (and the missing-closers rule appends exactly the
counted closers); and an input that no repair fixes re-raises the
original parse error — its message and position — never a silently
different value. -/
theorem parse_json_response_contract :
    (∀ (s : String) (v : JValue),
      jsonLoads (stripMarkdownFences s) = Except.ok v →
      parseJsonResponse s = Except.ok v)
    ∧ (∀ (s : String) (e : JsonError) (r : String),
      attemptJsonRepair s e = some r →
      MissingDelimiterSig s e ∨ TrailingSeparatorSig s e
        ∨ (MissingClosersSig s e
            ∧ r = String.mk (s.data ++ missingClosers s)))
    ∧ (∀ (s : String) (e : JsonError),
      jsonLoads (stripMarkdownFences s) = Except.error e →
      (∀ r, attemptJsonRepair (stripMarkdownFences s) e = some r →
        ∃ e2, jsonLoads r = Except.error e2) →
      parseJsonResponse s = Except.error e) := by
  refine ⟨?_, ?_, ?_⟩
  · intro s v hok
    unfold parseJsonResponse
    dsimp only
    rw [hok]
  · intro s e r h
    unfold attemptJsonRepair at h
    rcases h1 : repairMissingComma s e with _ | r1
    · rw [h1] at h
      rcases h2 : repairTrailingComma s e with _ | r2
      · rw [h2] at h
        exact Or.inr (Or.inr (by
          have := repairMissingClosers_spec s e r h
          exact this))
      · rw [h2] at h
        injection h with h
        subst h
        exact Or.inr (Or.inl (repairTrailingComma_spec s e r2 h2).1)
    · rw [h1] at h
      injection h with h
      subst h
      exact Or.inl (repairMissingComma_spec s e r1 h1).1
  · intro s e herr hrep
    unfold parseJsonResponse
    dsimp only
    rw [herr]
    dsimp only
    rcases hra : attemptJsonRepair (stripMarkdownFences s) e with _ | r
    · rfl
    · obtain ⟨e2, he2⟩ := hrep r hra
      dsimp only
      rw [he2]

/-! ## C6, C7, C8: remaining claim theorems -/

/-- C6: constructing an `InsightDeduplicator` with component weights
whose sum is not close to 1.0 (in the `np.isclose` sense) raises a
`ValueError` at construction time — before any embedding or similarity
computation, since construction performs none — while construction with
weights summing to exactly 1.0 succeeds and stores the weights
unchanged: the implemented policy is rejection, not renormalisation. -/
theorem deduplicator_weight_validation (w : Weights) (th : Option ℚ) :
    (npIsClose w.total 1 = false →
      initDeduplicator (some w) th = Except.error ("Weights must sum to 1.0"))
    ∧ (w.total = 1 →
      initDeduplicator (some w) th = Except.ok ⟨w, th⟩) := by
  constructor
  · intro hfar
    unfold initDeduplicator
    simp [Option.getD, hfar]
  · intro hone
    unfold initDeduplicator
    have hclose : npIsClose (Weights.total w) 1 = true := by
      unfold npIsClose
      rw [hone]
      norm_num
    simp [Option.getD, hclose]

/-- C7 (amended): when a stage ends with zero survivors — zero insights
generated, or zero variations created — `run_async` short-circuits all
remaining stages and returns an empty list WITHOUT persisting any
artifact (the save step 6 is only reached when both stages produce
survivors, in which case the artifact is written). -/
theorem zero_survivors_short_circuit {μ : Type} (genResults : List TaskOutcome)
    (genMd : List μ)
    (sim : (l : List (JValue × μ)) → Fin l.length → Fin l.length → ℚ)
    (th : ℚ) (creativeOf : ℕ → TaskOutcome) (evalOf : ℕ → TaskOutcome) :
    ((processGenerationResults genResults genMd).insights = [] →
      runSkeleton genResults genMd sim th creativeOf evalOf
        = ⟨[], false, false, false, false⟩)
    ∧ ((processGenerationResults genResults genMd).insights ≠ [] →
      (processCreativeResults
          (uniqueInsights (processGenerationResults genResults genMd).insights
            (sim (processGenerationResults genResults genMd).insights) th)
          ((List.range (uniqueInsights
              (processGenerationResults genResults genMd).insights
              (sim (processGenerationResults genResults genMd).insights)
                th).length).map creativeOf)).2.2 = [] →
      runSkeleton genResults genMd sim th creativeOf evalOf
        = ⟨[], false, true, true, false⟩) := by
  constructor
  · intro hempty
    unfold runSkeleton
    dsimp only
    rw [if_pos (by rw [hempty]; rfl)]
  · intro hne hvars
    unfold runSkeleton
    dsimp only
    rw [if_neg (by
      intro hlen
      exact hne (List.length_eq_zero.mp hlen))]
    rw [if_pos (by rw [hvars]; rfl)]

/-- C7 counterexample: a run whose only generation task raised ends with
zero survivors, and the orchestrator returns the empty list with NO
artifact persisted — contradicting the claim that an empty/diagnostic
artifact is still persisted for the run. -/
theorem zero_survivors_no_artifact :
    runSkeleton [TaskOutcome.exc ("boom")] ([()] : List Unit)
        (fun _ _ _ => 1) 0.85 (fun _ => TaskOutcome.exc (""))
        (fun _ => TaskOutcome.exc (""))
      = ⟨[], false, false, false, false⟩
    ∧ (runSkeleton [TaskOutcome.exc ("boom")] ([()] : List Unit)
        (fun _ _ _ => 1) 0.85 (fun _ => TaskOutcome.exc (""))
        (fun _ => TaskOutcome.exc (""))).artifactSaved = false := by
  constructor <;> rfl

/-- C8 (amended): the generation stage accepts only a parsed object
containing the key `"insights"` (counted as a success, contributing its
insights tagged with the task's own metadata); an exception outcome is
counted as a failure; any other result shape — including a bare JSON
array — is neither accepted nor counted as success or failure (the
processing loop has no final else branch). -/
theorem generation_result_accounting {μ : Type} (results : List TaskOutcome)
    (metadata : List μ) (hlen : results.length = metadata.length) :
    (processGenerationResults results metadata).successes
        = results.countP isGenSuccess
    ∧ (processGenerationResults results metadata).failures
        = results.countP isExc
    ∧ (processGenerationResults results metadata).insights
        = (results.zip metadata).flatMap
            (fun rm => (extractInsights rm.1).map (fun it => (it, rm.2)))
    ∧ (∀ xs : List JValue,
        isGenSuccess (TaskOutcome.val (JValue.arr xs)) = false
        ∧ isExc (TaskOutcome.val (JValue.arr xs)) = false) := by
  have h := processGenerationResults_spec results metadata hlen
  exact ⟨h.1, h.2.1, h.2.2, fun xs => ⟨rfl, rfl⟩⟩

/-- C8 counterexample: a generation task whose LLM response parsed to a
bare JSON array is not accepted as a success, not counted as a failure,
and contributes no insights — the task's outcome is silently dropped
from the run statistics, contradicting both halves of the claim. -/
theorem bare_array_silently_dropped :
    (processGenerationResults [TaskOutcome.val (JValue.arr [])]
        ([()] : List Unit)).successes = 0
    ∧ (processGenerationResults [TaskOutcome.val (JValue.arr [])]
        ([()] : List Unit)).failures = 0
    ∧ (processGenerationResults [TaskOutcome.val (JValue.arr [])]
        ([()] : List Unit)).insights = []
    ∧ [TaskOutcome.val (JValue.arr [])].length = 1 := by
  refine ⟨rfl, rfl, rfl, rfl⟩

/-! ## Concrete instances discharging each theorem's hypotheses -/

/-- A 1-insight batch whose component embeddings are the 1-dimensional
unit vector. -/
def allOnesEmb : Embeddings 1 1 := ⟨fun _ _ => 1, fun _ _ => 1, fun _ _ => 1⟩

theorem weighted_similarity_witness :
    allOnesEmb.Normalised
    ∧ defaultWeights.total = 1
    ∧ 0 ≤ defaultWeights.hook ∧ 0 ≤ defaultWeights.action
    ∧ 0 ≤ defaultWeights.explanation
    ∧ ((∀ i j, computeWeightedSimilarity defaultWeights allOnesEmb i j
          = computeWeightedSimilarity defaultWeights allOnesEmb j i)
      ∧ (∀ i, computeWeightedSimilarity defaultWeights allOnesEmb i i = 1)
      ∧ (∀ i j, computeWeightedSimilarity defaultWeights allOnesEmb i j
          ∈ Set.Icc (-1 : ℚ) 1)) := by
  have hnorm : allOnesEmb.Normalised := by
    refine ⟨?_, ?_, ?_⟩ <;>
      · intro i
        simp [IsUnit2, dotQ, allOnesEmb]
  have htot : defaultWeights.total = 1 := by
    norm_num [Weights.total, defaultWeights]
  have hh : (0 : ℚ) ≤ defaultWeights.hook := by norm_num [defaultWeights]
  have ha : (0 : ℚ) ≤ defaultWeights.action := by norm_num [defaultWeights]
  have he : (0 : ℚ) ≤ defaultWeights.explanation := by
    norm_num [defaultWeights]
  exact ⟨hnorm, htot, hh, ha, he,
    weighted_similarity_symm_diag_range defaultWeights allOnesEmb hnorm
      htot hh ha he⟩

theorem rate_limiter_witness :
    RLTrace 1 2 [(0 : ℚ)]
    ∧ (∀ w : ℚ, (([(0 : ℚ)]).filter
        (fun s => decide (w < s ∧ s ≤ w + 1))).length ≤ 1)
    ∧ (∀ w : ℚ, (([(0 : ℚ)]).filter
        (fun s => decide (w < s ∧ s ≤ w + 60))).length ≤ 2) := by
  have htr : RLTrace 1 2 [(0 : ℚ)] :=
    RLTrace.grant [] 0 RLTrace.nil (by simp) (by simp) (by simp)
  exact ⟨htr, (rate_limiter_never_over_admits 1 2 [0] htr).1,
    (rate_limiter_never_over_admits 1 2 [0] htr).2⟩

def out404 : ℕ → AttemptOutcome :=
  fun _ => AttemptOutcome.httpError 404 ("Not Found")

def out429 : ℕ → AttemptOutcome :=
  fun _ => AttemptOutcome.httpError 429 ("Too Many Requests")

def jit0 : ℕ → ℚ := fun _ => 0

theorem generate_retry_witness :
    0 < 3
    ∧ generate out404 jit0 3
        = ⟨CallResult.clientError 404 ("Not Found"), [], 1, 0, 1⟩
    ∧ generate out429 jit0 3
        = ⟨CallResult.exhausted 3 ((out429 (3 - 1)).errMsg),
           (List.range (3 - 1)).map (fun a => (2 : ℚ) ^ a + jit0 a),
           3, 0, 3⟩ := by
  refine ⟨by norm_num, ?_, ?_⟩
  · exact (generate_retry_classification out404 jit0 3 (by norm_num)).1
      404 ("Not Found") rfl (by norm_num) (by norm_num) (by norm_num)
  · refine (generate_retry_classification out429 jit0 3 (by norm_num)).2 ?_
    intro a _
    show ¬ (400 ≤ 429 ∧ 429 < 500 ∧ 429 ≠ 429)
    omega

theorem parse_json_response_witness :
    (jsonLoads (stripMarkdownFences
        ("```json\n\x7b\"variations\": []\x7d\n```"))
        = Except.ok (JValue.obj [("variations", JValue.arr [])])
      ∧ parseJsonResponse ("```json\n\x7b\"variations\": []\x7d\n```")
        = Except.ok (JValue.obj [("variations", JValue.arr [])]))
    ∧ (attemptJsonRepair ("\x7b\"a\":\x7b\x7d\"b\":1\x7d")
        ⟨msgExpectingComma, 7⟩
        = some ("\x7b\"a\":\x7b\x7d,\"b\":1\x7d")
      ∧ (MissingDelimiterSig ("\x7b\"a\":\x7b\x7d\"b\":1\x7d")
            ⟨msgExpectingComma, 7⟩
        ∨ TrailingSeparatorSig ("\x7b\"a\":\x7b\x7d\"b\":1\x7d")
            ⟨msgExpectingComma, 7⟩
        ∨ (MissingClosersSig ("\x7b\"a\":\x7b\x7d\"b\":1\x7d")
              ⟨msgExpectingComma, 7⟩
            ∧ ("\x7b\"a\":\x7b\x7d,\"b\":1\x7d" : String)
              = String.mk (("\x7b\"a\":\x7b\x7d\"b\":1\x7d" : String).data
                  ++ missingClosers ("\x7b\"a\":\x7b\x7d\"b\":1\x7d")))))
    ∧ (jsonLoads (stripMarkdownFences ("\x7b\"a\":1,"))
        = Except.error ⟨msgExpectingPropertyName, 7⟩
      ∧ parseJsonResponse ("\x7b\"a\":1,")
        = Except.error ⟨msgExpectingPropertyName, 7⟩) := by
  refine ⟨⟨rfl, ?_⟩, ⟨rfl, ?_⟩, ⟨rfl, ?_⟩⟩
  · exact parse_json_response_contract.1 _ _ rfl
  · exact parse_json_response_contract.2.1 _ _ _ rfl
  · refine parse_json_response_contract.2.2 _ _ rfl ?_
    intro r h
    have hrep : attemptJsonRepair (stripMarkdownFences ("\x7b\"a\":1,"))
        ⟨msgExpectingPropertyName, 7⟩ = some ("\x7b\"a\":1,\x7d") := rfl
    rw [hrep] at h
    injection h with h
    subst h
    exact ⟨⟨msgExpectingPropertyName, 7⟩, rfl⟩

theorem deduplicator_weight_validation_witness :
    (npIsClose (Weights.total ⟨0.4, 0.3, 0.2⟩) 1 = false
      ∧ initDeduplicator (some ⟨0.4, 0.3, 0.2⟩) none
        = Except.error ("Weights must sum to 1.0"))
    ∧ (Weights.total ⟨0.4, 0.4, 0.2⟩ = 1
      ∧ initDeduplicator (some ⟨0.4, 0.4, 0.2⟩) (some 0.85)
        = Except.ok ⟨⟨0.4, 0.4, 0.2⟩, some 0.85⟩) := by
  have h1 : npIsClose (Weights.total ⟨0.4, 0.3, 0.2⟩) 1 = false := by
    unfold npIsClose Weights.total
    rw [decide_eq_false_iff_not, not_le, abs_one,
      show (0.4 : ℚ) + 0.3 + 0.2 - 1 = -(0.1 : ℚ) by norm_num, abs_neg,
      abs_of_pos (by norm_num : (0 : ℚ) < 0.1)]
    norm_num
  have h2 : Weights.total ⟨0.4, 0.4, 0.2⟩ = 1 := by
    unfold Weights.total
    norm_num
  exact ⟨⟨h1, (deduplicator_weight_validation _ none).1 h1⟩,
    ⟨h2, (deduplicator_weight_validation _ (some 0.85)).2 h2⟩⟩

theorem processCreative_variations_exc {α : Type}
    (pairs : List (α × TaskOutcome)) (st : ℕ × ℕ × List (JValue × α))
    (h : ∀ p ∈ pairs, isExc p.2 = true) :
    (pairs.foldl
      (fun st ir =>
        match ir.2 with
        | TaskOutcome.exc _ => (st.1, st.2.1 + 1, st.2.2)
        | TaskOutcome.val v =>
          match v with
          | JValue.obj kvs =>
            match dictLookup kvs ("variations") with
            | some (JValue.arr items) =>
              (st.1 + 1, st.2.1, st.2.2 ++ items.map (fun it => (it, ir.1)))
            | some _ => (st.1 + 1, st.2.1, st.2.2)
            | none => st
          | _ => st) st).2.2 = st.2.2 := by
  induction pairs generalizing st with
  | nil => rfl
  | cons p rest ih =>
    have hp := h p (List.mem_cons_self p rest)
    cases hout : p.2 with
    | exc m =>
      simp only [List.foldl_cons, hout]
      exact ih _ (fun q hq => h q (List.mem_cons_of_mem _ hq))
    | val v => rw [hout] at hp; exact absurd hp (by simp [isExc])

theorem zero_survivors_short_circuit_witness :
    ((processGenerationResults [TaskOutcome.exc ("x")]
        ([()] : List Unit)).insights = []
      ∧ runSkeleton [TaskOutcome.exc ("x")] ([()] : List Unit)
          (fun _ _ _ => 1) 0.85 (fun _ => TaskOutcome.exc (""))
          (fun _ => TaskOutcome.exc (""))
        = ⟨[], false, false, false, false⟩)
    ∧ ((processGenerationResults
          [TaskOutcome.val (JValue.obj [("insights",
            JValue.arr [JValue.null])])] ([()] : List Unit)).insights ≠ []
      ∧ runSkeleton
          [TaskOutcome.val (JValue.obj [("insights",
            JValue.arr [JValue.null])])] ([()] : List Unit)
          (fun _ _ _ => 1) 0.85 (fun _ => TaskOutcome.exc (""))
          (fun _ => TaskOutcome.exc (""))
        = ⟨[], false, true, true, false⟩) := by
  have hins : (processGenerationResults
      [TaskOutcome.val (JValue.obj [("insights", JValue.arr [JValue.null])])]
      ([()] : List Unit)).insights = [(JValue.null, ())] := rfl
  have hne : (processGenerationResults
      [TaskOutcome.val (JValue.obj [("insights", JValue.arr [JValue.null])])]
      ([()] : List Unit)).insights ≠ [] := by
    rw [hins]
    exact List.cons_ne_nil _ _
  have hvars : ∀ (l : List (JValue × Unit)) (kn : ℕ),
      (processCreativeResults l
        ((List.range kn).map (fun _ => TaskOutcome.exc ("")))).2.2 = [] := by
    intro l kn
    unfold processCreativeResults
    apply processCreative_variations_exc
    intro p hp
    have := (List.of_mem_zip hp).2
    rcases List.mem_map.mp this with ⟨a, _, hpa⟩
    rw [← hpa]
    rfl
  refine ⟨⟨rfl, ?_⟩, ⟨hne, ?_⟩⟩
  · exact (zero_survivors_short_circuit _ _ _ _ _ _).1 rfl
  · exact (zero_survivors_short_circuit _ _ _ _ _ _).2 hne (hvars _ _)

theorem generation_result_accounting_witness :
    ([TaskOutcome.exc ("x")].length = ([()] : List Unit).length)
    ∧ ((processGenerationResults [TaskOutcome.exc ("x")]
          ([()] : List Unit)).successes
        = [TaskOutcome.exc ("x")].countP isGenSuccess
      ∧ (processGenerationResults [TaskOutcome.exc ("x")]
          ([()] : List Unit)).failures
        = [TaskOutcome.exc ("x")].countP isExc
      ∧ (processGenerationResults [TaskOutcome.exc ("x")]
          ([()] : List Unit)).insights
        = ([TaskOutcome.exc ("x")].zip ([()] : List Unit)).flatMap
            (fun rm => (extractInsights rm.1).map (fun it => (it, rm.2)))
      ∧ (∀ xs : List JValue,
          isGenSuccess (TaskOutcome.val (JValue.arr xs)) = false
          ∧ isExc (TaskOutcome.val (JValue.arr xs)) = false)) :=
  ⟨rfl, generation_result_accounting [TaskOutcome.exc ("x")] [()] rfl⟩

def twoTaskOutcome : Fin 2 → TaskOutcome :=
  fun i => if i = 0 then TaskOutcome.exc ("boom") else TaskOutcome.val JValue.null

theorem batch_failure_isolation_witness :
    (∀ i : Fin 2, i ∈ [(1 : Fin 2), 0])
    ∧ twoTaskOutcome 0 = TaskOutcome.exc ("boom")
    ∧ (assembleResults 2 (([(1 : Fin 2), 0]).map
          (fun i => (i, twoTaskOutcome i)))
        = (List.finRange 2).map (fun i => some (twoTaskOutcome i))
      ∧ 1 ≤ (processGenerationResults
          ((List.finRange 2).map twoTaskOutcome)
          ((List.finRange 2).map (fun _ => ()))).failures
      ∧ (processGenerationResults ((List.finRange 2).map twoTaskOutcome)
          ((List.finRange 2).map (fun _ => ()))).insights
        = (List.finRange 2).flatMap
            (fun i => (extractInsights (twoTaskOutcome i)).map
              (fun it => (it, ())))) := by
  have horder : ∀ i : Fin 2, i ∈ [(1 : Fin 2), 0] := by decide
  have hk : twoTaskOutcome 0 = TaskOutcome.exc ("boom") := rfl
  exact ⟨horder, hk,
    batch_failure_isolation 2 twoTaskOutcome (fun _ => ()) [1, 0] horder
      0 ("boom") hk⟩

def twoSim : Fin 2 → Fin 2 → ℚ := fun i j => if i = j then 1 else 0.9

theorem greedy_mean_ge_cluster_count_witness :
    (∀ i j, twoSim i j = twoSim j i)
    ∧ (∀ i, twoSim i i = 1)
    ∧ (∀ o ∈ [[(0 : Fin 2), 1]], ∀ v : Fin 2, v ∈ o)
    ∧ ([[(0 : Fin 2), 1]] ≠ [])
    ∧ ((∀ o ∈ [[(0 : Fin 2), 1]],
        numClusters 2 twoSim 0.85 ≤ (greedyKept twoSim 0.85 o).length)
      ∧ (numClusters 2 twoSim 0.85 : ℚ)
        ≤ greedyUniqueMean twoSim 0.85 [[(0 : Fin 2), 1]]) := by
  have hsym : ∀ i j, twoSim i j = twoSim j i := by
    intro i j
    fin_cases i <;> fin_cases j <;> rfl
  have hdiag : ∀ i, twoSim i i = 1 := by
    intro i
    fin_cases i <;> rfl
  have hord : ∀ o ∈ [[(0 : Fin 2), 1]], ∀ v : Fin 2, v ∈ o := by decide
  have hne : ([[(0 : Fin 2), 1]] : List (List (Fin 2))) ≠ [] := by simp
  exact ⟨hsym, hdiag, hord, hne,
    greedy_mean_ge_cluster_count twoSim 0.85 hsym hdiag _ hord hne⟩

end DYK
